import Mathlib

/-!
Verification of the date arithmetic, recurring-expense projection and
date-picker state machine of the dashboard repository.

The JavaScript sources are embedded shallowly:

* A JS `Date` holds an instant; we model instants as `Int` seconds since the
  Unix epoch (every instant produced by the modelled code is a whole second).
  An invalid `Date` (`NaN` time value) is modelled as `none : Option Int`.
* The host local timezone enters through an offset parameter `tz`, in minutes
  east of UTC (local wall time = UTC instant + `tz` minutes).  ECMAScript
  `Date` field arithmetic is the proleptic Gregorian calendar; we implement it
  with the standard civil-from-days / days-from-civil algorithms, which agree
  with the ECMAScript `MakeDay` / `YearFromTime` / `MonthFromTime` /
  `DateFromTime` operations.
* JS numbers are modelled as `Int`: every value the modelled code paths
  manipulate is a whole number (currency amounts, calendar fields, epoch
  seconds), and every claim under analysis is exact integer arithmetic.
-/

namespace Dashboard

/-! ## Proleptic Gregorian calendar arithmetic

`daysFromCivil y m d` is the number of days from 1970-01-01 to the civil date
`(y, m, d)` (`m` 1-based; `d` may exceed the month length, in which case the
result simply continues into the following months, exactly as ECMAScript
`MakeDay` behaves).  `civilFromDays` is the inverse.  `/` and `%` on `Int`
are Euclidean division (= floor division for the positive divisors used
here), which matches the floor semantics required by ECMAScript. -/

/-- Gregorian leap year test (as in ECMAScript `DaysInYear`). -/
def isLeap (y : Int) : Bool := (y % 4 == 0 && y % 100 != 0) || y % 400 == 0

/-- Number of days of month `m` (1-based) of year `y`. -/
def daysInMonth (y m : Int) : Int :=
  if m = 2 then (if isLeap y then 29 else 28)
  else if m = 4 ∨ m = 6 ∨ m = 9 ∨ m = 11 then 30
  else 31

/-- Day-of-year (March-based) of day 1 of civil month `m` (1-based). -/
def doyOfMonth (m : Int) : Int := (153 * ((m + 9) % 12) + 2) / 5

/-- Day number of the start (March-based day 0) of the March-based year
beginning in civil year `y'`. -/
def yearStartDays (y' : Int) : Int :=
  y' / 400 * 146097 + ((y' % 400) * 365 + y' % 400 / 4 - y' % 400 / 100) - 719468

/-- Days since the epoch of the civil date `(y, m, d)`, `m` 1-based, for
`1 ≤ m ≤ 12`; `d` is unconstrained and values past the month length roll
over into the following months. -/
def daysFromCivil (y m d : Int) : Int :=
  yearStartDays (if m ≤ 2 then y - 1 else y) + doyOfMonth m + d - 1

/-- Era (400-year block) of a day number. -/
def eraOfDay (z : Int) : Int := (z + 719468) / 146097

/-- Day-of-era of a day number. -/
def doeOfDay (z : Int) : Int := (z + 719468) % 146097

/-- Year-of-era recovered from a day-of-era. -/
def yoeOfDoe (doe : Int) : Int :=
  (doe - doe / 1460 + doe / 36524 - doe / 146096) / 365

/-- Day-of-year (March-based) recovered from a day-of-era. -/
def doyOfDoe (doe : Int) : Int :=
  doe - (365 * yoeOfDoe doe + yoeOfDoe doe / 4 - yoeOfDoe doe / 100)

/-- March-based month index (0 = March) recovered from a day-of-year. -/
def mpOfDoy (doy : Int) : Int := (5 * doy + 2) / 153

/-- March-based month index of the civil date of a day number. -/
def civilMonthMarch (z : Int) : Int := mpOfDoy (doyOfDoe (doeOfDay z))

/-- Civil month (1-based) of a day number. -/
def civilMonth (z : Int) : Int :=
  if civilMonthMarch z < 10 then civilMonthMarch z + 3 else civilMonthMarch z - 9

/-- Civil day-of-month of a day number. -/
def civilDay (z : Int) : Int :=
  doyOfDoe (doeOfDay z) - (153 * civilMonthMarch z + 2) / 5 + 1

/-- Civil year of the March-based year containing a day number. -/
def civilYearMarch (z : Int) : Int := yoeOfDoe (doeOfDay z) + eraOfDay z * 400

/-- Civil year of a day number. -/
def civilYear (z : Int) : Int :=
  if civilMonth z ≤ 2 then civilYearMarch z + 1 else civilYearMarch z

/-- Civil date `(y, m, d)` (`m` 1-based) of a day number since the epoch. -/
def civilFromDays (z : Int) : Int × Int × Int := (civilYear z, civilMonth z, civilDay z)

/-- A valid civil date: month in range and day within the month length. -/
def ValidDate (y m d : Int) : Prop :=
  1 ≤ m ∧ m ≤ 12 ∧ 1 ≤ d ∧ d ≤ daysInMonth y m

instance (y m d : Int) : Decidable (ValidDate y m d) := by
  unfold ValidDate; infer_instance

/-- Year-of-era recovery, ordinary day of year (everything except the leap
day Feb 29, which in the March-based reckoning is day 365). -/
theorem yoeOfDoe_eq (yoe doy : Int) (hyoe : 0 ≤ yoe ∧ yoe ≤ 399)
    (hdoy : 0 ≤ doy ∧ doy ≤ 364) :
    yoeOfDoe (yoe * 365 + yoe / 4 - yoe / 100 + doy) = yoe := by
  obtain ⟨a, c, e, ha, hc, he, hb, hsum⟩ :
      ∃ a c e, (0 ≤ a ∧ a ≤ 3) ∧ (0 ≤ c ∧ c ≤ 24) ∧ (0 ≤ e ∧ e ≤ 3) ∧
        4 * c + e ≤ 99 ∧ yoe = 100 * a + 4 * c + e :=
    ⟨yoe / 100, yoe % 100 / 4, yoe % 100 % 4, by omega, by omega, by omega,
      by omega, by omega⟩
  set doe := yoe * 365 + yoe / 4 - yoe / 100 + doy with hdoe
  have h4 : yoe / 4 = 25 * a + c := by omega
  have h100 : yoe / 100 = a := by omega
  have hval : doe = 36524 * a + 1461 * c + 365 * e + doy := by omega
  have h146096 : doe / 146096 = 0 := by omega
  have h36524 : doe / 36524 = a := by omega
  rcases le_or_lt (24 * a + c + 365 * e + doy) 1459 with hr | hr
  · have h1460 : doe / 1460 = 25 * a + c := by omega
    unfold yoeOfDoe
    omega
  · have h1460 : doe / 1460 = 25 * a + c + 1 := by omega
    unfold yoeOfDoe
    omega

/-- Year-of-era recovery for the leap day (March-based day-of-year 365,
which only occurs when the following civil year is a leap year). -/
theorem yoeOfDoe_eq_leap (yoe : Int) (hyoe : 0 ≤ yoe ∧ yoe ≤ 399)
    (hleap : ((yoe + 1) % 4 = 0 ∧ (yoe + 1) % 100 ≠ 0) ∨ (yoe + 1) % 400 = 0) :
    yoeOfDoe (yoe * 365 + yoe / 4 - yoe / 100 + 365) = yoe := by
  obtain ⟨a, c, e, ha, hc, he, hb, hsum⟩ :
      ∃ a c e, (0 ≤ a ∧ a ≤ 3) ∧ (0 ≤ c ∧ c ≤ 24) ∧ (0 ≤ e ∧ e ≤ 3) ∧
        4 * c + e ≤ 99 ∧ yoe = 100 * a + 4 * c + e :=
    ⟨yoe / 100, yoe % 100 / 4, yoe % 100 % 4, by omega, by omega, by omega,
      by omega, by omega⟩
  set doe := yoe * 365 + yoe / 4 - yoe / 100 + 365 with hdoe
  have h4 : yoe / 4 = 25 * a + c := by omega
  have h100 : yoe / 100 = a := by omega
  have hval : doe = 36524 * a + 1461 * c + 365 * e + 365 := by omega
  have he3 : e = 3 := by omega
  rcases eq_or_lt_of_le hc.2 with hc24 | hc24
  · -- c = 24: forces yoe = 399, the final leap day of a 400-year era
    have ha3 : a = 3 := by omega
    have hval' : doe = 146096 := by omega
    have h146096 : doe / 146096 = 1 := by omega
    have h36524 : doe / 36524 = 4 := by omega
    have h1460 : doe / 1460 = 100 := by omega
    unfold yoeOfDoe
    omega
  · have h146096 : doe / 146096 = 0 := by omega
    have h36524 : doe / 36524 = a := by omega
    have h1460 : doe / 1460 = 25 * a + c + 1 := by omega
    unfold yoeOfDoe
    omega

/-- Bounds for the day-of-month of any month. -/
theorem daysInMonth_bounds (y m : Int) :
    28 ≤ daysInMonth y m ∧ daysInMonth y m ≤ 31 := by
  unfold daysInMonth
  split_ifs <;> omega

/-- Outside February, the March-based day-of-year table advances by exactly
the month length (`doyOfMonth` is 12-periodic, so `m + 1` also covers the
December to January step). -/
theorem doyOfMonth_add (y m : Int) (hm1 : 1 ≤ m) (hm2 : m ≤ 12) (hne : m ≠ 2) :
    doyOfMonth m + daysInMonth y m = doyOfMonth (m + 1) := by
  interval_cases m
  all_goals first
  | exact absurd rfl hne
  | (unfold doyOfMonth daysInMonth; norm_num)

/-- `civilFromDays` is a left inverse of `daysFromCivil` on valid dates. -/
theorem civilFromDays_daysFromCivil (y m d : Int) (hv : ValidDate y m d) :
    civilFromDays (daysFromCivil y m d) = (y, m, d) := by
  obtain ⟨hm1, hm2, hd1, hd2⟩ := hv
  -- abbreviations for the pieces of the forward computation
  set y' := if m ≤ 2 then y - 1 else y with hy'
  set era := y' / 400 with hera_def
  set yoe := y' % 400 with hyoe_def
  set mp := (m + 9) % 12 with hmp_def
  set doyC := (153 * mp + 2) / 5 with hdoyC_def
  set doy := doyC + d - 1 with hdoy_def
  set z := daysFromCivil y m d with hz_def
  have hy'cases : (m ≤ 2 ∧ y' = y - 1) ∨ (3 ≤ m ∧ y' = y) := by
    rcases le_or_lt m 2 with h | h
    · exact Or.inl ⟨h, by rw [hy', if_pos h]⟩
    · exact Or.inr ⟨h, by rw [hy', if_neg (by omega)]⟩
  have hyoeB : 0 ≤ yoe ∧ yoe ≤ 399 := by omega
  have hmpB : 0 ≤ mp ∧ mp ≤ 11 := by omega
  have hdoyCB : 0 ≤ doyC ∧ doyC ≤ 337 := by omega
  have hmp11 : mp = 11 → m = 2 := by omega
  have hd31 : d ≤ 31 := by
    have := daysInMonth_bounds y m; omega
  have hdFeb : mp = 11 → d ≤ 29 := by
    intro h
    have hm2 := hmp11 h
    rw [hm2] at hd2
    unfold daysInMonth at hd2
    split_ifs at hd2 <;> omega
  have hdoyC11 : mp = 11 → doyC = 337 := by intro h; omega
  have hdoyC10 : mp ≤ 10 → doyC ≤ 306 := by intro h; omega
  have hz : z = era * 146097 + (yoe * 365 + yoe / 4 - yoe / 100 + doy) - 719468 := by
    rw [hz_def]
    unfold daysFromCivil yearStartDays doyOfMonth
    rw [← hy']
    omega
  have hdoeB : 0 ≤ yoe * 365 + yoe / 4 - yoe / 100 + doy ∧
      yoe * 365 + yoe / 4 - yoe / 100 + doy ≤ 146096 := by omega
  have hdoe : doeOfDay z = yoe * 365 + yoe / 4 - yoe / 100 + doy := by
    unfold doeOfDay; omega
  have hera : eraOfDay z = era := by
    unfold eraOfDay; omega
  -- year-of-era recovery; the leap day needs the leap-year pattern of `y`
  have hyoe : yoeOfDoe (doeOfDay z) = yoe := by
    rw [hdoe]
    rcases le_or_lt doy 364 with hle | hgt
    · exact yoeOfDoe_eq yoe doy hyoeB ⟨by omega, hle⟩
    · -- doy = 365 forces the leap day: m = 2, d = 29, and y is leap
      have hm2 : m = 2 := by
        rcases le_or_lt mp 10 with h | h
        · exfalso; have := hdoyC10 h; omega
        · exact hmp11 (by omega)
      have hd29 : d = 29 := by
        have := hdoyC11 (by omega); omega
      have hleapy : (y % 4 = 0 ∧ y % 100 ≠ 0) ∨ y % 400 = 0 := by
        rw [hm2] at hd2
        unfold daysInMonth at hd2
        rcases hL : isLeap y with hF | hT
        · rw [hL] at hd2; simp at hd2; omega
        · simp only [isLeap, Bool.or_eq_true, Bool.and_eq_true, beq_iff_eq,
            bne_iff_ne, ne_eq] at hL
          omega
      have hdoy365 : doy = 365 := by
        have := hdoyC11 (by omega); omega
      rw [hdoy365]
      apply yoeOfDoe_eq_leap yoe hyoeB
      -- y = era * 400 + yoe + 1 because m = 2 means y' = y - 1
      have hy : y = era * 400 + yoe + 1 := by
        have : y' = y - 1 := by rw [hy']; simp [hm2]
        omega
      omega
  have hdoy' : doyOfDoe (doeOfDay z) = doy := by
    unfold doyOfDoe
    rw [hyoe, hdoe]
    omega
  have hdoyCm : doyOfMonth m = doyC := by
    unfold doyOfMonth
    rw [← hmp_def]
  have hm2mp : m = 2 → mp = 11 := by omega
  have hnext : mp ≤ 10 → 5 * (doyC + daysInMonth y m) ≤ 153 * mp + 155 := by
    intro h
    have hne : m ≠ 2 := fun hc => by have := hm2mp hc; omega
    have h1 := doyOfMonth_add y m hm1 hm2 hne
    have h2 : doyOfMonth (m + 1) = (153 * (mp + 1) + 2) / 5 := by
      unfold doyOfMonth
      have hmod : (m + 1 + 9) % 12 = mp + 1 := by omega
      rw [hmod]
    rw [hdoyCm, h2] at h1
    omega
  have hmarch : civilMonthMarch z = mp := by
    unfold civilMonthMarch mpOfDoy
    rw [hdoy']
    omega
  have hcm : civilMonth z = m := by
    unfold civilMonth
    rw [hmarch]
    split_ifs <;> omega
  have hcd : civilDay z = d := by
    unfold civilDay
    rw [hdoy', hmarch]
    omega
  have hcy : civilYear z = y := by
    unfold civilYear civilYearMarch
    rw [hcm, hyoe, hera]
    split_ifs with h <;> omega
  rw [civilFromDays, hcy, hcm, hcd]

/-- `daysFromCivil` is linear in the day argument. -/
theorem daysFromCivil_day (y m d : Int) :
    daysFromCivil y m d = daysFromCivil y m 1 + (d - 1) := by
  unfold daysFromCivil
  omega

/-- A March-based year spans 365 or 366 days according to the leap status of
the civil year in which it ends. -/
theorem yearStartDays_succ (y : Int) :
    yearStartDays y = yearStartDays (y - 1) + (if isLeap y then 366 else 365) := by
  unfold yearStartDays
  split_ifs with h
  · simp only [isLeap, Bool.or_eq_true, Bool.and_eq_true, beq_iff_eq,
      bne_iff_ne, ne_eq] at h
    omega
  · simp only [isLeap, Bool.or_eq_true, Bool.and_eq_true, beq_iff_eq,
      bne_iff_ne, ne_eq, not_or, not_and, Decidable.not_not] at h
    omega

/-- Month index of a civil month: `monthIdx (y, m) = 12 * y + (m - 1)`,
with inverse `k ↦ (k / 12, k % 12 + 1)`.  `firstOfMonthDay k` is the day
number of the first day of month `k`. -/
def firstOfMonthDay (k : Int) : Int := daysFromCivil (k / 12) (k % 12 + 1) 1

/-- `daysFromCivil` written without the conditional, late months. -/
theorem daysFromCivil_late (y m d : Int) (h : ¬ m ≤ 2) :
    daysFromCivil y m d = yearStartDays y + doyOfMonth m + d - 1 := by
  unfold daysFromCivil
  rw [if_neg h]

/-- `daysFromCivil` written without the conditional, early months. -/
theorem daysFromCivil_early (y m d : Int) (h : m ≤ 2) :
    daysFromCivil y m d = yearStartDays (y - 1) + doyOfMonth m + d - 1 := by
  unfold daysFromCivil
  rw [if_pos h]

/-- Stepping one month forward advances `firstOfMonthDay` by the month
length. -/
theorem firstOfMonthDay_succ (k : Int) :
    firstOfMonthDay (k + 1) = firstOfMonthDay k + daysInMonth (k / 12) (k % 12 + 1) := by
  have hL : firstOfMonthDay k = daysFromCivil (k / 12) (k % 12 + 1) 1 := rfl
  rcases eq_or_lt_of_le (show k % 12 ≤ 11 by omega) with h11 | h11
  · -- December: the next month is January of the next year, same March year
    have hm : k % 12 + 1 = 12 := by omega
    have hR : firstOfMonthDay (k + 1) = daysFromCivil (k / 12 + 1) 1 1 := by
      unfold firstOfMonthDay
      rw [show (k + 1) / 12 = k / 12 + 1 by omega, show (k + 1) % 12 + 1 = 1 by omega]
    rw [hL, hR, hm]
    rw [daysFromCivil_late _ 12 1 (by norm_num), daysFromCivil_early _ 1 1 (by norm_num)]
    rw [show (k / 12 + 1 - 1 : Int) = k / 12 by ring]
    have h12 : doyOfMonth 12 = 275 := by decide
    have h1 : doyOfMonth 1 = 306 := by decide
    have hd : daysInMonth (k / 12) 12 = 31 := by unfold daysInMonth; norm_num
    omega
  · have hR : firstOfMonthDay (k + 1) = daysFromCivil (k / 12) (k % 12 + 1 + 1) 1 := by
      unfold firstOfMonthDay
      rw [show (k + 1) / 12 = k / 12 by omega, show (k + 1) % 12 + 1 = k % 12 + 1 + 1 by omega]
    rw [hL, hR]
    rcases lt_trichotomy (k % 12 + 1) 2 with hm | hm | hm
    · -- January to February, both in the early part of the March year
      have h1 : k % 12 + 1 = 1 := by omega
      rw [h1]
      rw [daysFromCivil_early _ 1 1 (by norm_num),
        daysFromCivil_early _ (1 + 1) 1 (by norm_num)]
      have e1 : doyOfMonth 1 = 306 := by decide
      have e2 : doyOfMonth (1 + 1) = 337 := by decide
      have hd : daysInMonth (k / 12) 1 = 31 := by unfold daysInMonth; norm_num
      omega
    · -- February to March: the March-based year advances
      rw [hm]
      rw [daysFromCivil_early _ 2 1 (by norm_num),
        daysFromCivil_late _ (2 + 1) 1 (by norm_num)]
      have e1 : doyOfMonth 2 = 337 := by decide
      have e2 : doyOfMonth (2 + 1) = 0 := by decide
      have hys := yearStartDays_succ (k / 12)
      have hd : daysInMonth (k / 12) 2 = if isLeap (k / 12) then 29 else 28 := by
        unfold daysInMonth
        rw [if_pos rfl]
      split_ifs at hys hd <;> omega
    · -- generic same-year step for months 3 through 11
      have hadd := doyOfMonth_add (k / 12) (k % 12 + 1) (by omega) (by omega) (by omega)
      rw [daysFromCivil_late _ (k % 12 + 1) 1 (by omega),
        daysFromCivil_late _ (k % 12 + 1 + 1) 1 (by omega)]
      omega

/-- Adding whole months advances the first-of-month day number by at least
28 days per month. -/
theorem firstOfMonthDay_add (k : Int) (n : Nat) :
    firstOfMonthDay k + 28 * n ≤ firstOfMonthDay (k + n) := by
  induction n with
  | zero => simp
  | succ n ih =>
    have hstep := firstOfMonthDay_succ (k + n)
    have hdim := daysInMonth_bounds ((k + n) / 12) ((k + n) % 12 + 1)
    push_cast
    push_cast at ih
    have : (k + (n + 1 : ℤ)) = (k + n) + 1 := by ring
    rw [this]
    omega

/-- `firstOfMonthDay` is monotone in the month index. -/
theorem firstOfMonthDay_mono (k₁ k₂ : Int) (h : k₁ ≤ k₂) :
    firstOfMonthDay k₁ ≤ firstOfMonthDay k₂ := by
  have h1 := firstOfMonthDay_add k₁ (k₂ - k₁).toNat
  have h2 : ((k₂ - k₁).toNat : Int) = k₂ - k₁ := Int.toNat_of_nonneg (by omega)
  rw [h2] at h1
  simp only [add_sub_cancel] at h1
  omega

/-- `firstOfMonthDay` is strictly monotone in the month index. -/
theorem firstOfMonthDay_strictMono (k₁ k₂ : Int) (h : k₁ < k₂) :
    firstOfMonthDay k₁ < firstOfMonthDay k₂ := by
  have h1 := firstOfMonthDay_add k₁ (k₂ - k₁).toNat
  have h2 : ((k₂ - k₁).toNat : Int) = k₂ - k₁ := Int.toNat_of_nonneg (by omega)
  rw [h2] at h1
  simp only [add_sub_cancel] at h1
  omega

/-! ## Decimal digit strings

JS stringifies the calendar fields in decimal with zero padding
(`toISOString` emits `YYYY-MM-DD...`).  `decDigits` produces the decimal
digits of a natural number (the fuel is always ample: every number formatted
by the modelled code is below `10 ^ 8`). -/

/-- Decimal digit list of `n` (most significant first). -/
def decDigits (fuel n : Nat) : List Char :=
  match fuel with
  | 0 => []
  | fuel + 1 =>
    if n < 10 then [Nat.digitChar n]
    else decDigits fuel (n / 10) ++ [Nat.digitChar (n % 10)]

/-- Left-pad a character list with zeros to width `w`. -/
def padZeros (w : Nat) (l : List Char) : List Char :=
  List.replicate (w - l.length) '0' ++ l

/-- Two-digit zero-padded decimal rendering (as in `toISOString` fields). -/
def pad2 (n : Int) : String := String.mk (padZeros 2 (decDigits 8 n.toNat))

/-- Four-digit zero-padded decimal rendering (as in the `toISOString` year). -/
def pad4 (n : Int) : String := String.mk (padZeros 4 (decDigits 8 n.toNat))

/-- Numeric value of a decimal digit list. -/
def decValAux (l : List Char) : Nat := l.foldl (fun a c => 10 * a + (c.toNat - 48)) 0

theorem decValAux_append (l₁ l₂ : List Char) :
    decValAux (l₁ ++ l₂) = l₂.foldl (fun a c => 10 * a + (c.toNat - 48)) (decValAux l₁) := by
  unfold decValAux
  exact List.foldl_append _ _ _ _

theorem decValAux_digitChar (n : Nat) (h : n < 10) :
    decValAux [Nat.digitChar n] = n := by
  interval_cases n <;> decide

/-- `decValAux` recovers the number rendered by `decDigits`. -/
theorem decValAux_decDigits (fuel n : Nat) (h : n < 10 ^ fuel) :
    decValAux (decDigits fuel n) = n := by
  induction fuel generalizing n with
  | zero =>
    have hn : n = 0 := by simpa using h
    subst hn
    rfl
  | succ fuel ih =>
    unfold decDigits
    split_ifs with h10
    · exact decValAux_digitChar n h10
    · have hp : (10 : Nat) ^ (fuel + 1) = 10 ^ fuel * 10 := pow_succ 10 fuel
      have hlt : n / 10 < 10 ^ fuel := by omega
      rw [decValAux_append, List.foldl_cons, List.foldl_nil, ih (n / 10) hlt]
      have hd : (Nat.digitChar (n % 10)).toNat - 48 = n % 10 := by
        have h9 : n % 10 < 10 := Nat.mod_lt n (by norm_num)
        have := decValAux_digitChar (n % 10) h9
        unfold decValAux at this
        simpa using this
      rw [hd]
      omega

theorem decValAux_zeros (k : Nat) (l : List Char) :
    decValAux (List.replicate k '0' ++ l) = decValAux l := by
  induction k with
  | zero => rfl
  | succ k ih =>
    rw [List.replicate_succ, List.cons_append]
    unfold decValAux at *
    rw [List.foldl_cons]
    simpa using ih

/-- The padded renderings are injective on the ranges the code uses. -/
theorem decValAux_pad2 (n : Int) (h0 : 0 ≤ n) (h1 : n ≤ 99) :
    decValAux (pad2 n).data = n.toNat := by
  unfold pad2 padZeros
  rw [show (String.mk (List.replicate (2 - (decDigits 8 n.toNat).length) '0' ++
    decDigits 8 n.toNat)).data = List.replicate (2 - (decDigits 8 n.toNat).length) '0' ++
    decDigits 8 n.toNat from rfl]
  rw [decValAux_zeros]
  exact decValAux_decDigits 8 n.toNat (by omega)

theorem decValAux_pad4 (n : Int) (h0 : 0 ≤ n) (h1 : n ≤ 9999) :
    decValAux (pad4 n).data = n.toNat := by
  unfold pad4 padZeros
  rw [show (String.mk (List.replicate (4 - (decDigits 8 n.toNat).length) '0' ++
    decDigits 8 n.toNat)).data = List.replicate (4 - (decDigits 8 n.toNat).length) '0' ++
    decDigits 8 n.toNat from rfl]
  rw [decValAux_zeros]
  exact decValAux_decDigits 8 n.toNat (by omega)

/-- Digit-count bound: a number below `10 ^ k` renders in at most `k` digits. -/
theorem decDigits_length (fuel n k : Nat) (h : n < 10 ^ k) (hk : 1 ≤ k) :
    (decDigits fuel n).length ≤ k := by
  induction fuel generalizing n k with
  | zero => simp [decDigits]
  | succ fuel ih =>
    unfold decDigits
    split_ifs with h10
    · simpa using hk
    · have hk2 : 2 ≤ k := by
        by_contra hcon
        have hk1 : k = 1 := by omega
        rw [hk1] at h
        simp at h
        omega
      have hp : (10 : Nat) ^ k = 10 ^ (k - 1) * 10 := by
        rw [← pow_succ]
        congr 1
        omega
      have hlt : n / 10 < 10 ^ (k - 1) := by omega
      have := ih (n / 10) (k - 1) hlt (by omega)
      rw [List.length_append]
      simp only [List.length_singleton]
      omega

theorem pad4_length (n : Int) (h0 : 0 ≤ n) (h1 : n ≤ 9999) :
    (pad4 n).data.length = 4 := by
  unfold pad4 padZeros
  have hlen : (decDigits 8 n.toNat).length ≤ 4 :=
    decDigits_length 8 n.toNat 4 (by omega) (by norm_num)
  rw [show (String.mk (List.replicate (4 - (decDigits 8 n.toNat).length) '0' ++
    decDigits 8 n.toNat)).data = List.replicate (4 - (decDigits 8 n.toNat).length) '0' ++
    decDigits 8 n.toNat from rfl]
  rw [List.length_append, List.length_replicate]
  omega

/-! ## ECMAScript `Date` operations

Instants are `Int` seconds since the Unix epoch.  `tz` is the host local
offset in minutes east of UTC; the local wall-clock fields of an instant `t`
are the UTC fields of `t + tz * 60`. -/

/-- ECMAScript `MakeDay`: `m` is 0-based and unconstrained; out-of-range
month and day arguments roll over (floor semantics). -/
def jsMakeDay (y m d : Int) : Int := daysFromCivil (y + m / 12) (m % 12 + 1) d

/-- Two-digit year rule of `Date.UTC` and the multi-argument `Date`
constructor: years 0 through 99 denote 1900 through 1999. -/
def jsYearAdjust (y : Int) : Int := if 0 ≤ y ∧ y ≤ 99 then y + 1900 else y

/-- `Date.UTC(y, m, d)` (in seconds). -/
def jsDateUTC (y m d : Int) : Int := jsMakeDay (jsYearAdjust y) m d * 86400

/-- `new Date(y, m, d)`: local midnight of the (normalized) civil date. -/
def jsNewDateYMD (tz y m d : Int) : Int :=
  jsMakeDay (jsYearAdjust y) m d * 86400 - tz * 60

/-- `getUTCFullYear()`. -/
def jsGetUTCFullYear (t : Int) : Int := civilYear (t / 86400)

/-- `getUTCMonth()` (0-based). -/
def jsGetUTCMonth (t : Int) : Int := civilMonth (t / 86400) - 1

/-- `getUTCDate()` (day of month). -/
def jsGetUTCDate (t : Int) : Int := civilDay (t / 86400)

/-- `getFullYear()` under local offset `tz`. -/
def jsGetFullYear (tz t : Int) : Int := civilYear ((t + tz * 60) / 86400)

/-- `getMonth()` (0-based) under local offset `tz`. -/
def jsGetMonth (tz t : Int) : Int := civilMonth ((t + tz * 60) / 86400) - 1

/-- `setUTCMonth(m)`: keeps the UTC day-of-month and time-of-day, replaces
the UTC month (0-based, unconstrained; rolls over via `MakeDay`).  No
two-digit year rule applies here. -/
def jsSetUTCMonth (t m : Int) : Int :=
  jsMakeDay (jsGetUTCFullYear t) m (jsGetUTCDate t) * 86400 + t % 86400

/-- Date part of `toISOString()` (`"YYYY-MM-DD"`), modelled for the years
0 through 9999 that the four-digit ISO format covers. -/
def jsToISODate (t : Int) : String :=
  pad4 (civilYear (t / 86400)) ++ "-" ++ pad2 (civilMonth (t / 86400)) ++ "-" ++
    pad2 (civilDay (t / 86400))

/-- `toISOString().slice(0, 7)` (`"YYYY-MM"`). -/
def jsToISOYearMonth (t : Int) : String :=
  pad4 (civilYear (t / 86400)) ++ "-" ++ pad2 (civilMonth (t / 86400))

/-- UTC midnight instant of a civil date, a convenient abbreviation used in
theorem statements. -/
def utcMidnight (y m d : Int) : Int := daysFromCivil y m d * 86400

/-! ## String coercion and date parsing -/

/-- ASCII decimal digit test (the `\d` of the guarding regex and the digits
of the `Number()` grammar). -/
def isDigitChar (c : Char) : Bool := 48 ≤ c.toNat && c.toNat ≤ 57

/-- Whitespace as trimmed by the JS `Number()` coercion (the common ASCII
members; the exotic Unicode space characters never reach this code). -/
def isWsChar (c : Char) : Bool :=
  c.toNat = 32 || c.toNat = 9 || c.toNat = 10 || c.toNat = 13 || c.toNat = 11 || c.toNat = 12

/-- Strip leading and trailing whitespace. -/
def trimChars (l : List Char) : List Char :=
  ((l.dropWhile isWsChar).reverse.dropWhile isWsChar).reverse

/-- Fragment of the JS `Number()` coercion on strings that is exercised by
the modelled code: after whitespace trimming, the empty string is `0`, an
optional sign followed by decimal digits is that integer, and anything else
(including the fractional, exponent and hex forms no caller produces) is
`NaN`, modelled as `none`. -/
def jsNumber (s : String) : Option Int :=
  let t := trimChars s.data
  if t = [] then some 0
  else if t.all isDigitChar then some ((decValAux t : Nat) : Int)
  else
    match t with
    | '+' :: rest =>
      if rest ≠ [] ∧ rest.all isDigitChar = true then some ((decValAux rest : Nat) : Int)
      else none
    | '-' :: rest =>
      if rest ≠ [] ∧ rest.all isDigitChar = true then some (-((decValAux rest : Nat) : Int))
      else none
    | _ => none

/-- The JS `split("-")` on a character list: cut at every dash; the empty
string yields one empty component. -/
def splitOnDash : List Char → List (List Char)
  | [] => [[]]
  | c :: rest =>
    if c = '-' then [] :: splitOnDash rest
    else
      match splitOnDash rest with
      | [] => [[c]]
      | g :: gs => (c :: g) :: gs

/-- `parseDateUTC` of the datepicker module: splits on `"-"`, coerces the
first three components with `Number`, and feeds them to
`Date.UTC(year, month - 1, day)`; the empty string (falsy) and `NaN`
components give `null`.  A missing third component is `undefined`, which is
also `NaN` under `isNaN`. -/
def parseDateUTC (s : String) : Option Int :=
  if s = "" then none
  else
    match (splitOnDash s.data).map (fun l => jsNumber (String.mk l)) with
    | some y :: some m :: some d :: _ => some (jsDateUTC y (m - 1) d)
    | _ => none

/-- `parseDateSafely` of the finance view: accepts exactly the shape
`\d{4}-\d{2}-\d{2}` (and then applies the same split / `Number` /
`Date.UTC` pipeline, whose components are the plain digit groups); every
other input is the invalid-date sentinel `none`. -/
def parseDateSafely (s : String) : Option Int :=
  match s.data with
  | [y1, y2, y3, y4, c1, m1, m2, c2, d1, d2] =>
    if [y1, y2, y3, y4, m1, m2, d1, d2].all isDigitChar = true ∧ c1 = '-' ∧ c2 = '-' then
      some (jsDateUTC ((decValAux [y1, y2, y3, y4] : Nat) : Int)
        (((decValAux [m1, m2] : Nat) : Int) - 1) ((decValAux [d1, d2] : Nat) : Int))
    else none
  | _ => none

/-- The shape `\d{4}-\d{2}-\d{2}` of the specification: exactly ten
characters, digits in the year, month and day positions, dashes between
them.  This is the specification-side statement of the regular expression
guarding `parseDateSafely`. -/
def shapeYMD (s : String) : Bool :=
  match s.data with
  | [y1, y2, y3, y4, c1, m1, m2, c2, d1, d2] =>
    decide ([y1, y2, y3, y4, m1, m2, d1, d2].all isDigitChar = true ∧ c1 = '-' ∧ c2 = '-')
  | _ => false

/-- `new Date(s + "T00:00:00")` on an entry date string `s`: a conforming
`YYYY-MM-DD` prefix yields the local-time midnight instant of that date
(ECMAScript interprets date-time forms without an offset as local time);
out-of-range fields and non-conforming strings yield an invalid date. -/
def jsParseLocalMidnight (tz : Int) (s : String) : Option Int :=
  match s.data with
  | [y1, y2, y3, y4, c1, m1, m2, c2, d1, d2] =>
    if [y1, y2, y3, y4, m1, m2, d1, d2].all isDigitChar = true ∧ c1 = '-' ∧ c2 = '-' then
      if 1 ≤ ((decValAux [m1, m2] : Nat) : Int) ∧ ((decValAux [m1, m2] : Nat) : Int) ≤ 12 ∧
          1 ≤ ((decValAux [d1, d2] : Nat) : Int) ∧
          ((decValAux [d1, d2] : Nat) : Int) ≤
            daysInMonth ((decValAux [y1, y2, y3, y4] : Nat) : Int)
              ((decValAux [m1, m2] : Nat) : Int) then
        some (daysFromCivil ((decValAux [y1, y2, y3, y4] : Nat) : Int)
          ((decValAux [m1, m2] : Nat) : Int) ((decValAux [d1, d2] : Nat) : Int) * 86400
          - tz * 60)
      else none
    else none
  | _ => none

/-- `new Date(s)` on an appointment datetime string `"YYYY-MM-DDTHH:MM:SS"`:
conforming strings without an offset are local time; anything else is an
invalid date. -/
def jsParseLocalDateTime (tz : Int) (s : String) : Option Int :=
  match s.data with
  | [y1, y2, y3, y4, c1, m1, m2, c2, d1, d2, ct, h1, h2, c3, n1, n2, c4, s1, s2] =>
    if [y1, y2, y3, y4, m1, m2, d1, d2, h1, h2, n1, n2, s1, s2].all isDigitChar = true ∧
        c1 = '-' ∧ c2 = '-' ∧ ct = 'T' ∧ c3 = ':' ∧ c4 = ':' then
      let y : Int := (decValAux [y1, y2, y3, y4] : Nat)
      let mo : Int := (decValAux [m1, m2] : Nat)
      let da : Int := (decValAux [d1, d2] : Nat)
      let ho : Int := (decValAux [h1, h2] : Nat)
      let mi : Int := (decValAux [n1, n2] : Nat)
      let se : Int := (decValAux [s1, s2] : Nat)
      if 1 ≤ mo ∧ mo ≤ 12 ∧ 1 ≤ da ∧ da ≤ daysInMonth y mo ∧
          ((ho ≤ 23 ∧ mi ≤ 59 ∧ se ≤ 59) ∨ (ho = 24 ∧ mi = 0 ∧ se = 0)) then
        some (daysFromCivil y mo da * 86400 + ho * 3600 + mi * 60 + se - tz * 60)
      else none
    else none
  | _ => none

/-! ## The expense projection of `calculateAnalytics` (`main.js`)

Embeds the financial half of `calculateAnalytics` (lines 88 through 175):
the expansion of `Fixa` entries into virtual monthly occurrences, the
pass-through of `Pontual` entries, the monthly summary, the annual expense
buckets, and the flattened list handed to the view layer.  `today` is the
`new Date()` reference instant and `tz` the host offset in minutes. -/

/-- A raw financial entry as fetched from the store. -/
structure FinancialEntry where
  id : String
  entry_date : String
  description : String
  value : Int
  type : String
  deriving DecidableEq, Repr

/-- An element of the `allExpenses` working list built by
`calculateAnalytics`. -/
structure Expense where
  id : String
  entry_date : String
  description : String
  value : Int
  type : String
  originalId : String
  isVirtual : Bool
  deriving DecidableEq, Repr

/-- An element of the flattened expense list handed to the view layer. -/
structure ViewExpense where
  id : String
  date : String
  description : String
  value : Int
  type : String
  isVirtual : Bool
  deriving DecidableEq, Repr

/-- An appointment row (only the fields the financial summary reads). -/
structure Appointment where
  appointment_datetime : String
  price : Int
  deriving DecidableEq, Repr

/-- The `monthlySummary` record. -/
structure MonthlySummary where
  revenue : Int
  expenses : Int
  netProfit : Int
  deriving DecidableEq, Repr

/-- The virtual occurrence pushed for one iteration of the `Fixa` loop:
`{...entry, id: entry.id + "-" + monthRunner.toISOString().slice(0,7),
entry_date: new Date(runner.getUTCFullYear(), runner.getUTCMonth(),
startDate.getUTCDate()).toISOString().split("T")[0], originalId: entry.id,
isVirtual: true}`. -/
def mkVirtualExpense (tz : Int) (e : FinancialEntry) (startDate runner : Int) : Expense :=
  { id := e.id ++ "-" ++ jsToISOYearMonth runner
    entry_date := jsToISODate
      (jsNewDateYMD tz (jsGetUTCFullYear runner) (jsGetUTCMonth runner) (jsGetUTCDate startDate))
    description := e.description
    value := e.value
    type := e.type
    originalId := e.id
    isVirtual := true }

/-- The `while (monthRunner <= today)` loop of the `Fixa` branch.  The fuel
only bounds the iteration count; `expandEntry` supplies enough fuel for the
loop to run to its natural exit (each iteration advances the runner by at
least 28 days, see `fixaLoop_closed` below). -/
def fixaLoop (tz : Int) (e : FinancialEntry) (startDate today : Int) :
    Nat → Int → List Expense
  | 0, _ => []
  | fuel + 1, runner =>
    if runner ≤ today then
      mkVirtualExpense tz e startDate runner ::
        fixaLoop tz e startDate today fuel (jsSetUTCMonth runner (jsGetUTCMonth runner + 1))
    else []

/-- Month index (`12 * year + month - 1`) of the UTC civil date of an
instant; used to compute an ample fuel for `fixaLoop`. -/
def monthIdxOfInstant (t : Int) : Int :=
  12 * civilYear (t / 86400) + (civilMonth (t / 86400) - 1)

/-- The initial `monthRunner`:
`new Date(startDate.getUTCFullYear(), startDate.getUTCMonth(), 1)`. -/
def fixaRunner (tz startDate : Int) : Int :=
  jsNewDateYMD tz (jsGetUTCFullYear startDate) (jsGetUTCMonth startDate) 1

/-- Ample fuel for `fixaLoop`: every iteration advances the month index of
the runner by at least one (the runner day number grows by at least 28 and
`MakeDay` adds at least a month), so the loop exits within the month-index
span of runner and reference date. -/
def fixaFuel (tz today startDate : Int) : Nat :=
  (monthIdxOfInstant today - monthIdxOfInstant (fixaRunner tz startDate) + 2).toNat

/-- The `{...entry, originalId: entry.id, isVirtual: false}` push of the
`Pontual` branch. -/
def mkPontualExpense (e : FinancialEntry) : Expense :=
  { id := e.id
    entry_date := e.entry_date
    description := e.description
    value := e.value
    type := e.type
    originalId := e.id
    isVirtual := false }

/-- The per-entry body of the `financialData.forEach` loop (lines 90
through 113): entries with `value >= 0` are skipped, `Pontual` entries pass
through, `Fixa` entries are expanded month by month from the first of their
start month while the runner does not exceed `today`. -/
def expandEntry (tz today : Int) (e : FinancialEntry) : List Expense :=
  if 0 ≤ e.value then []
  else if e.type = "Pontual" then [mkPontualExpense e]
  else if e.type = "Fixa" then
    match jsParseLocalMidnight tz e.entry_date with
    | none => []
    | some startDate =>
      fixaLoop tz e startDate today (fixaFuel tz today startDate) (fixaRunner tz startDate)
  else []

/-- The full `allExpenses` list (the `forEach` with `push` is a flat map
over the input order). -/
def allExpensesOf (tz today : Int) (financialData : List FinancialEntry) : List Expense :=
  financialData.flatMap (expandEntry tz today)

/-- Month membership test of the summary loops: parse the date and compare
the local year and month fields against those of `today`; an invalid date
has `NaN` fields and never matches. -/
def inCurrentMonth (tz today : Int) (parsed : Option Int) : Bool :=
  match parsed with
  | none => false
  | some t =>
    (jsGetFullYear tz t == jsGetFullYear tz today) && (jsGetMonth tz t == jsGetMonth tz today)

/-- Year membership test of the annual summary loops. -/
def inCurrentYear (tz today : Int) (parsed : Option Int) : Bool :=
  match parsed with
  | none => false
  | some t => jsGetFullYear tz t == jsGetFullYear tz today

/-- The `monthlySummary` computation (lines 115 through 132): revenue from
the appointments of the current local month, expenses as `Math.abs(value)`
over the expense occurrences of the current local month, and
`netProfit = revenue - expenses`. -/
def monthlySummaryOf (tz today : Int) (appointmentsData : List Appointment)
    (allExpenses : List Expense) : MonthlySummary :=
  let revenue := appointmentsData.foldl
    (fun acc a =>
      if inCurrentMonth tz today (jsParseLocalDateTime tz a.appointment_datetime) then
        acc + a.price
      else acc) 0
  let expenses := allExpenses.foldl
    (fun acc x =>
      if inCurrentMonth tz today (jsParseLocalMidnight tz x.entry_date) then
        acc + |x.value|
      else acc) 0
  { revenue := revenue, expenses := expenses, netProfit := revenue - expenses }

/-- The `annualSummary.expenseData` buckets (lines 147 through 153):
twelve zero-initialised buckets, incremented at the local month index of
every expense of the current local year. -/
def annualExpenseDataOf (tz today : Int) (allExpenses : List Expense) : List Int :=
  allExpenses.foldl
    (fun arr x =>
      match jsParseLocalMidnight tz x.entry_date with
      | none => arr
      | some t =>
        if jsGetFullYear tz t = jsGetFullYear tz today then
          arr.set (jsGetMonth tz t).toNat (arr.getD (jsGetMonth tz t).toNat 0 + |x.value|)
        else arr)
    (List.replicate 12 0)

/-- The flattened expense list returned to the view layer (lines 166
through 173): the id is replaced by `originalId`. -/
def flattenForView (allExpenses : List Expense) : List ViewExpense :=
  allExpenses.map fun e =>
    { id := e.originalId
      date := e.entry_date
      description := e.description
      value := e.value
      type := e.type
      isVirtual := e.isVirtual }

/-! ## The datepicker state machine (`createDatePickerPopup`)

The selection state is the pair of nullable `startDate` / `endDate`
variables; day clicks arrive as the `data-date` attribute string of the
clicked cell and are parsed with `parseDateUTC`. -/

/-- The `startDate` / `endDate` pair of `createDatePickerPopup`. -/
structure PickerState where
  startDate : Option Int
  endDate : Option Int
  deriving DecidableEq, Repr

/-- `handleDayClick` (lines 214 through 244): returns the new state and the
`onSelect` emission, if any.  In range mode no emission ever happens; in
single mode the click emits `(clicked, null)` immediately.  An unparseable
attribute is a no-op. -/
def handleDayClick (isRange : Bool) (st : PickerState) (dateAttr : String) :
    PickerState × Option (Int × Option Int) :=
  match parseDateUTC dateAttr with
  | none => (st, none)
  | some clicked =>
    if isRange then
      match st.startDate, st.endDate with
      | none, _ => ({ startDate := some clicked, endDate := none }, none)
      | some _, some _ => ({ startDate := some clicked, endDate := none }, none)
      | some a, none =>
        if clicked < a then ({ startDate := some clicked, endDate := some a }, none)
        else ({ startDate := some a, endDate := some clicked }, none)
    else
      ({ startDate := some clicked, endDate := st.endDate }, some (clicked, none))

/-- The `disabled` attribute of the Apply button rendered by
`renderCalendar` (line 175): set unless both dates are chosen. -/
def applyDisabled (st : PickerState) : Bool :=
  !(st.startDate.isSome && st.endDate.isSome)

/-- The Apply click listener (lines 196 through 200) composed with the
`daterange` `onSelect` callback of `createCustomInput` (lines 351 through
359, which ends in `closePopup()`): the state variables are untouched, and
`onSelect(start, end)` fires (and the popup closes) exactly when both dates
are set. -/
def applyClick (st : PickerState) : PickerState × Option (Int × Int) :=
  match st.startDate, st.endDate with
  | some a, some b => (st, some (a, b))
  | _, _ => (st, none)

/-- Whether an Apply click closes the popup: the only `closePopup` on this
path is the tail of the `daterange` `onSelect` callback, so the popup
closes exactly when the click emits. -/
def applyCloses (st : PickerState) : Bool := (applyClick st).2.isSome

/-! ## The finance view summary (`financeView.js`) -/

/-- The reducer body of `calculateSummary`. -/
def calcSummaryStep (acc : MonthlySummary) (e : ViewExpense) : MonthlySummary :=
  if e.value > 0 then { acc with revenue := acc.revenue + e.value }
  else if e.value < 0 then { acc with expenses := acc.expenses + e.value }
  else acc

/-- `calculateSummary` (lines 64 through 76): raw signed accumulation,
positive values into `revenue`, strictly negative values into `expenses`,
then `netProfit = revenue + expenses`. -/
def calculateSummary (entries : List ViewExpense) : MonthlySummary :=
  let acc := entries.foldl calcSummaryStep { revenue := 0, expenses := 0, netProfit := 0 }
  { acc with netProfit := acc.revenue + acc.expenses }

/-- The figure rendered for the `Despesas` card by
`updateDisplayedMonthData` (line 167): `Math.abs(summaryData.expenses)`. -/
def displayedExpenses (entries : List ViewExpense) : Int :=
  |(calculateSummary entries).expenses|

/-! ## Closed form of the `Fixa` expansion loop (UTC host, `tz = 0`) -/

/-- Linear month index of a civil month. -/
def monthIdx (y m : Int) : Int := 12 * y + (m - 1)

/-- `n` consecutive integers starting at `k`. -/
def monthRangeAux : Nat → Int → List Int
  | 0, _ => []
  | n + 1, k => k :: monthRangeAux n (k + 1)

/-- The list of month indices from `k₁` to `k₂` inclusive (empty when
`k₂ < k₁`). -/
def monthRange (k₁ k₂ : Int) : List Int := monthRangeAux (k₂ + 1 - k₁).toNat k₁

/-- The virtual occurrence of month index `k` for an entry whose start date
has day-of-month `d₀`, written directly in terms of the month index. -/
def fixaOccAt (e : FinancialEntry) (d₀ k : Int) : Expense :=
  { id := e.id ++ "-" ++ (pad4 (k / 12) ++ "-" ++ pad2 (k % 12 + 1))
    entry_date := jsToISODate (daysFromCivil (k / 12) (k % 12 + 1) d₀ * 86400)
    description := e.description
    value := e.value
    type := e.type
    originalId := e.id
    isVirtual := true }

theorem monthRange_empty (k₁ k₂ : Int) (h : k₂ < k₁) : monthRange k₁ k₂ = [] := by
  unfold monthRange
  rw [show (k₂ + 1 - k₁).toNat = 0 by omega]
  rfl

theorem monthRange_cons (k₁ k₂ : Int) (h : k₁ ≤ k₂) :
    monthRange k₁ k₂ = k₁ :: monthRange (k₁ + 1) k₂ := by
  unfold monthRange
  rw [show (k₂ + 1 - k₁).toNat = (k₂ - k₁).toNat + 1 by omega,
    show (k₂ + 1 - (k₁ + 1)).toNat = (k₂ - k₁).toNat by omega]
  rfl

theorem monthRangeAux_mem (n : Nat) (k x : Int) :
    x ∈ monthRangeAux n k ↔ k ≤ x ∧ x < k + n := by
  induction n generalizing k with
  | zero => simp [monthRangeAux]
  | succ n ih =>
    unfold monthRangeAux
    rw [List.mem_cons, ih]
    push_cast
    omega

theorem monthRange_mem (k₁ k₂ x : Int) :
    x ∈ monthRange k₁ k₂ ↔ k₁ ≤ x ∧ x ≤ k₂ := by
  unfold monthRange
  rw [monthRangeAux_mem]
  omega

theorem monthRangeAux_nodup (n : Nat) (k : Int) : (monthRangeAux n k).Nodup := by
  induction n generalizing k with
  | zero => exact List.nodup_nil
  | succ n ih =>
    unfold monthRangeAux
    refine List.nodup_cons.mpr ⟨?_, ih (k + 1)⟩
    rw [monthRangeAux_mem]
    omega

/-- The UTC midnight of a valid civil date reads back its own fields through
the `Date` getters. -/
theorem getters_utcMidnight (y m d : Int) (hv : ValidDate y m d) :
    jsGetUTCFullYear (utcMidnight y m d) = y ∧
    jsGetUTCMonth (utcMidnight y m d) = m - 1 ∧
    jsGetUTCDate (utcMidnight y m d) = d := by
  have hdiv : utcMidnight y m d / 86400 = daysFromCivil y m d := by
    unfold utcMidnight
    omega
  have h := civilFromDays_daysFromCivil y m d hv
  unfold civilFromDays at h
  rw [Prod.mk.injEq, Prod.mk.injEq] at h
  unfold jsGetUTCFullYear jsGetUTCMonth jsGetUTCDate
  rw [hdiv]
  exact ⟨h.1, by rw [h.2.1], h.2.2⟩

/-- The first day of any month is a valid date. -/
theorem validDate_first (k : Int) : ValidDate (k / 12) (k % 12 + 1) 1 := by
  have := daysInMonth_bounds (k / 12) (k % 12 + 1)
  unfold ValidDate
  omega

/-- `firstOfMonthDay` in terms of `daysFromCivil` through the month index. -/
theorem daysFromCivil_firstOfMonthDay (y m d : Int) (h1 : 1 ≤ m) (h2 : m ≤ 12) :
    daysFromCivil y m d = firstOfMonthDay (monthIdx y m) + (d - 1) := by
  unfold firstOfMonthDay monthIdx
  rw [show (12 * y + (m - 1)) / 12 = y by omega, show (12 * y + (m - 1)) % 12 + 1 = m by omega]
  exact daysFromCivil_day y m d

/-- `MakeDay` with an in-range 0-based month argument. -/
theorem jsMakeDay_inrange (y m d : Int) (h1 : 0 ≤ m) (h2 : m ≤ 11) :
    jsMakeDay y m d = daysFromCivil y (m + 1) d := by
  unfold jsMakeDay
  rw [show y + m / 12 = y by omega, show m % 12 + 1 = m + 1 by omega]

/-- The getters of the first-of-month runner instant. -/
theorem getters_firstOfMonth (k : Int) :
    jsGetUTCFullYear (firstOfMonthDay k * 86400) = k / 12 ∧
    jsGetUTCMonth (firstOfMonthDay k * 86400) = k % 12 ∧
    jsGetUTCDate (firstOfMonthDay k * 86400) = 1 := by
  have h := getters_utcMidnight (k / 12) (k % 12 + 1) 1 (validDate_first k)
  unfold utcMidnight at h
  have hfom : firstOfMonthDay k = daysFromCivil (k / 12) (k % 12 + 1) 1 := rfl
  rw [← hfom] at h
  exact ⟨h.1, by have := h.2.1; omega, h.2.2⟩

/-- One `setUTCMonth(getUTCMonth() + 1)` step on a first-of-month midnight
runner advances it to the first of the next month. -/
theorem setUTCMonth_step (k : Int) :
    jsSetUTCMonth (firstOfMonthDay k * 86400) (jsGetUTCMonth (firstOfMonthDay k * 86400) + 1) =
      firstOfMonthDay (k + 1) * 86400 := by
  obtain ⟨hy, hm, hd⟩ := getters_firstOfMonth k
  unfold jsSetUTCMonth
  rw [hy, hm, hd]
  rw [show firstOfMonthDay k * 86400 % 86400 = 0 by omega]
  rcases eq_or_lt_of_le (show k % 12 ≤ 11 by omega) with h11 | h11
  · -- December: the 0-based month argument is 12 and rolls into January
    unfold jsMakeDay
    rw [show (k % 12 + 1) / 12 = 1 by omega, show (k % 12 + 1) % 12 = 0 by omega]
    unfold firstOfMonthDay
    rw [show (k + 1) / 12 = k / 12 + 1 by omega, show (k + 1) % 12 + 1 = 0 + 1 by omega]
    omega
  · rw [jsMakeDay_inrange _ _ _ (by omega) (by omega)]
    unfold firstOfMonthDay
    rw [show (k + 1) / 12 = k / 12 by omega, show (k + 1) % 12 + 1 = k % 12 + 1 + 1 by omega]
    omega

/-- The civil fields of the first-of-month day number. -/
theorem civil_firstOfMonth (k : Int) :
    civilYear (firstOfMonthDay k) = k / 12 ∧ civilMonth (firstOfMonthDay k) = k % 12 + 1 ∧
      civilDay (firstOfMonthDay k) = 1 := by
  have h := civilFromDays_daysFromCivil (k / 12) (k % 12 + 1) 1 (validDate_first k)
  unfold civilFromDays at h
  rw [Prod.mk.injEq, Prod.mk.injEq] at h
  exact h

/-- `new Date(y, m, d)` under a UTC host and a four-digit year is UTC
midnight of the (1-based) month `m + 1`. -/
theorem jsNewDateYMD_utc (y m d : Int) (h1 : 0 ≤ m) (h2 : m ≤ 11) (hy : 100 ≤ y) :
    jsNewDateYMD 0 y m d = daysFromCivil y (m + 1) d * 86400 := by
  unfold jsNewDateYMD jsYearAdjust
  rw [if_neg (by omega), jsMakeDay_inrange y m d h1 h2]
  ring

/-- Under a UTC host, the virtual occurrence pushed for a first-of-month
runner is exactly `fixaOccAt` at that month index. -/
theorem mkVirtualExpense_eq (e : FinancialEntry) (startDate k : Int) (hk : 100 ≤ k / 12) :
    mkVirtualExpense 0 e startDate (firstOfMonthDay k * 86400) =
      fixaOccAt e (jsGetUTCDate startDate) k := by
  obtain ⟨hy, hm, hd⟩ := getters_firstOfMonth k
  obtain ⟨cy, cm, cd⟩ := civil_firstOfMonth k
  have hdiv : firstOfMonthDay k * 86400 / 86400 = firstOfMonthDay k := by omega
  unfold mkVirtualExpense fixaOccAt jsToISOYearMonth
  rw [hdiv, hy, hm, cy, cm]
  rw [jsNewDateYMD_utc (k / 12) (k % 12) _ (by omega) (by omega) hk]

/-- The loop condition `monthRunner <= today` holds exactly for month
indices up to the month of the reference date. -/
theorem fixaLoop_cond (k yr mr dr : Int) (hvr : ValidDate yr mr dr) :
    firstOfMonthDay k * 86400 ≤ utcMidnight yr mr dr ↔ k ≤ monthIdx yr mr := by
  unfold utcMidnight
  obtain ⟨hm1, hm2, hd1, hd2⟩ := hvr
  rw [daysFromCivil_firstOfMonthDay yr mr dr hm1 hm2]
  constructor
  · intro h
    by_contra hcon
    push_neg at hcon
    have h1 : firstOfMonthDay (monthIdx yr mr + 1) ≤ firstOfMonthDay k :=
      firstOfMonthDay_mono _ _ (by omega)
    have h2 := firstOfMonthDay_succ (monthIdx yr mr)
    have h3 : monthIdx yr mr / 12 = yr := by unfold monthIdx; omega
    have h4 : monthIdx yr mr % 12 + 1 = mr := by unfold monthIdx; omega
    rw [h3, h4] at h2
    omega
  · intro h
    have h1 := firstOfMonthDay_mono k (monthIdx yr mr) h
    omega

/-- Closed form of the `Fixa` while loop, UTC host: with sufficient fuel and
a first-of-month runner, the loop emits exactly one virtual occurrence per
month index from the runner month through the reference month. -/
theorem fixaLoop_closed (e : FinancialEntry) (startDate yr mr dr : Int)
    (hvr : ValidDate yr mr dr) :
    ∀ (fuel : Nat) (k : Int), 1200 ≤ k → monthIdx yr mr + 2 ≤ k + fuel →
    fixaLoop 0 e startDate (utcMidnight yr mr dr) fuel (firstOfMonthDay k * 86400) =
      (monthRange k (monthIdx yr mr)).map (fixaOccAt e (jsGetUTCDate startDate)) := by
  intro fuel
  induction fuel with
  | zero =>
    intro k hk hfuel
    rw [monthRange_empty _ _ (by omega)]
    rfl
  | succ fuel ih =>
    intro k hk hfuel
    unfold fixaLoop
    rcases le_or_lt k (monthIdx yr mr) with hle | hgt
    · rw [if_pos ((fixaLoop_cond k yr mr dr hvr).mpr hle)]
      rw [setUTCMonth_step k]
      rw [mkVirtualExpense_eq e startDate k (by omega)]
      rw [ih (k + 1) (by omega) (by push_cast at hfuel ⊢; omega)]
      rw [monthRange_cons k _ hle, List.map_cons]
    · rw [if_neg (fun hcond =>
        absurd ((fixaLoop_cond k yr mr dr hvr).mp hcond) (by omega))]
      rw [monthRange_empty _ _ hgt]
      rfl

/-- Month index of the UTC midnight of a valid date. -/
theorem monthIdxOfInstant_utcMidnight (y m d : Int) (hv : ValidDate y m d) :
    monthIdxOfInstant (utcMidnight y m d) = monthIdx y m := by
  have hdiv : utcMidnight y m d / 86400 = daysFromCivil y m d := by
    unfold utcMidnight; omega
  have h := civilFromDays_daysFromCivil y m d hv
  unfold civilFromDays at h
  rw [Prod.mk.injEq, Prod.mk.injEq] at h
  unfold monthIdxOfInstant monthIdx
  rw [hdiv, h.1, h.2.1]

/-- Month index of a first-of-month midnight instant. -/
theorem monthIdxOfInstant_firstOfMonth (k : Int) :
    monthIdxOfInstant (firstOfMonthDay k * 86400) = k := by
  obtain ⟨cy, cm, cd⟩ := civil_firstOfMonth k
  have hdiv : firstOfMonthDay k * 86400 / 86400 = firstOfMonthDay k := by omega
  unfold monthIdxOfInstant
  rw [hdiv, cy, cm]
  omega

/-- Closed form of the entire `Fixa` branch of `expandEntry`, UTC host: a
negative recurring entry with a valid parsed start date expands into exactly
one occurrence per calendar month from its start month through the month of
the reference date, each dated via `MakeDay` on the start day-of-month. -/
theorem expandEntry_fixa (e : FinancialEntry) (y0 m0 d0 yr mr dr : Int)
    (htype : e.type = "Fixa") (hneg : e.value < 0)
    (hv0 : ValidDate y0 m0 d0) (hvr : ValidDate yr mr dr) (hy0 : 100 ≤ y0)
    (hparse : jsParseLocalMidnight 0 e.entry_date = some (utcMidnight y0 m0 d0)) :
    expandEntry 0 (utcMidnight yr mr dr) e =
      (monthRange (monthIdx y0 m0) (monthIdx yr mr)).map (fixaOccAt e d0) := by
  obtain ⟨g1, g2, g3⟩ := getters_utcMidnight y0 m0 d0 hv0
  obtain ⟨hm01, hm02, _, _⟩ := hv0
  unfold expandEntry
  rw [if_neg (by omega), htype]
  rw [if_neg (by decide : ¬ ("Fixa" = "Pontual")), if_pos rfl]
  split
  next heq =>
    rw [hparse] at heq
    exact absurd heq (by simp)
  next st heq =>
    rw [hparse] at heq
    obtain rfl : st = utcMidnight y0 m0 d0 := (Option.some.inj heq).symm
    have hrun : fixaRunner 0 (utcMidnight y0 m0 d0) =
        firstOfMonthDay (monthIdx y0 m0) * 86400 := by
      unfold fixaRunner
      rw [g1, g2]
      rw [jsNewDateYMD_utc y0 (m0 - 1) 1 (by omega) (by omega) hy0]
      rw [show m0 - 1 + 1 = m0 by ring]
      rw [daysFromCivil_firstOfMonthDay y0 m0 1 hm01 hm02]
      ring
    have hfuel : fixaFuel 0 (utcMidnight yr mr dr) (utcMidnight y0 m0 d0) =
        (monthIdx yr mr - monthIdx y0 m0 + 2).toNat := by
      unfold fixaFuel
      rw [hrun, monthIdxOfInstant_utcMidnight yr mr dr hvr, monthIdxOfInstant_firstOfMonth]
    rw [hrun, hfuel]
    have := fixaLoop_closed e (utcMidnight y0 m0 d0) yr mr dr hvr
      ((monthIdx yr mr - monthIdx y0 m0 + 2).toNat) (monthIdx y0 m0)
      (by unfold monthIdx; omega) (by omega)
    rw [this, g3]

/-! ## Fold bookkeeping helpers -/

/-- A guarded accumulating fold is the sum over the filtered list. -/
theorem foldl_guard_sum {α : Type} (p : α → Bool) (f : α → Int) (l : List α) (acc : Int) :
    l.foldl (fun a x => if p x then a + f x else a) acc =
      acc + ((l.filter p).map f).sum := by
  induction l generalizing acc with
  | nil => simp
  | cons x xs ih =>
    rw [List.foldl_cons]
    rcases hp : p x with h | h
    · rw [if_neg (by simp [hp])]
      rw [ih acc]
      rw [List.filter_cons_of_neg (by simp [hp])]
    · rw [if_pos (by simp [hp])]
      rw [ih (acc + f x)]
      rw [List.filter_cons_of_pos (by simp [hp]), List.map_cons, List.sum_cons]
      ring

/-- Entries with value zero contribute nothing: when all values are
nonnegative, the filtered sum equals the strictly-positive filtered sum. -/
theorem filter_sum_pos {α : Type} (p : α → Bool) (f : α → Int) (l : List α)
    (h : ∀ a ∈ l, 0 ≤ f a) :
    ((l.filter p).map f).sum =
      ((l.filter (fun a => p a && decide (0 < f a))).map f).sum := by
  induction l with
  | nil => rfl
  | cons x xs ih =>
    have hx := h x (by simp)
    have ihs := ih (fun a ha => h a (by simp [ha]))
    rcases hp : p x with h' | h'
    · rw [List.filter_cons_of_neg (by simp [hp]), List.filter_cons_of_neg (by simp [hp])]
      exact ihs
    · rw [List.filter_cons_of_pos (by simp [hp])]
      rcases lt_or_eq_of_le hx with hpos | hzero
      · rw [List.filter_cons_of_pos (by simp [hp]; omega)]
        simp only [List.map_cons, List.sum_cons]
        rw [ihs]
      · rw [List.filter_cons_of_neg (by simp [hp]; omega)]
        simp only [List.map_cons, List.sum_cons]
        rw [ihs]
        omega

/-- Dropping a middle element that every fold step ignores. -/
theorem foldl_middle_id {α β : Type} (f : β → α → β) (x : α) (hx : ∀ b, f b x = b)
    (l₁ l₂ : List α) (b : β) :
    (l₁ ++ x :: l₂).foldl f b = (l₁ ++ l₂).foldl f b := by
  induction l₁ generalizing b with
  | nil => simp [List.foldl_cons, hx]
  | cons y ys ih => simp only [List.cons_append, List.foldl_cons]; exact ih (f b y)

/-- What the `calculateSummary` reduction accumulates: the positive and the
strictly negative values, separately, with the `netProfit` field untouched. -/
theorem calcSummary_foldl (l : List ViewExpense) (acc : MonthlySummary) :
    (l.foldl calcSummaryStep acc).revenue =
      acc.revenue + ((l.filter (fun e => decide (0 < e.value))).map (fun e => e.value)).sum ∧
    (l.foldl calcSummaryStep acc).expenses =
      acc.expenses + ((l.filter (fun e => decide (e.value < 0))).map (fun e => e.value)).sum ∧
    (l.foldl calcSummaryStep acc).netProfit = acc.netProfit := by
  induction l generalizing acc with
  | nil => simp
  | cons x xs ih =>
    rw [List.foldl_cons]
    rcases lt_trichotomy x.value 0 with hx | hx | hx
    · have hstep : calcSummaryStep acc x =
          ⟨acc.revenue, acc.expenses + x.value, acc.netProfit⟩ := by
        unfold calcSummaryStep
        rw [if_neg (by omega), if_pos hx]
      rw [hstep]
      obtain ⟨ih1, ih2, ih3⟩ := ih ⟨acc.revenue, acc.expenses + x.value, acc.netProfit⟩
      refine ⟨?_, ?_, ?_⟩
      · rw [ih1, List.filter_cons_of_neg (by simp; omega)]
      · rw [ih2, List.filter_cons_of_pos (by simp; omega), List.map_cons, List.sum_cons]
        show acc.expenses + x.value + _ = acc.expenses + (x.value + _)
        ring
      · rw [ih3]
    · have hstep : calcSummaryStep acc x = acc := by
        unfold calcSummaryStep
        rw [if_neg (by omega), if_neg (by omega)]
      rw [hstep]
      obtain ⟨ih1, ih2, ih3⟩ := ih acc
      refine ⟨?_, ?_, ?_⟩
      · rw [ih1, List.filter_cons_of_neg (by simp; omega)]
      · rw [ih2, List.filter_cons_of_neg (by simp; omega)]
      · exact ih3
    · have hstep : calcSummaryStep acc x =
          ⟨acc.revenue + x.value, acc.expenses, acc.netProfit⟩ := by
        unfold calcSummaryStep
        rw [if_pos hx]
      rw [hstep]
      obtain ⟨ih1, ih2, ih3⟩ := ih ⟨acc.revenue + x.value, acc.expenses, acc.netProfit⟩
      refine ⟨?_, ?_, ?_⟩
      · rw [ih1, List.filter_cons_of_pos (by simp; omega), List.map_cons, List.sum_cons]
        show acc.revenue + x.value + _ = acc.revenue + (x.value + _)
        ring
      · rw [ih2, List.filter_cons_of_neg (by simp; omega)]
      · rw [ih3]

/-! ## String bookkeeping helpers -/

theorem string_append_data (s t : String) : (s ++ t).data = s.data ++ t.data := rfl

/-- Injectivity of the `"YYYY-MM"` rendering on the ranges in use. -/
theorem iso7_inj (a b a' b' : Int)
    (ha : 0 ≤ a ∧ a ≤ 9999) (ha' : 0 ≤ a' ∧ a' ≤ 9999)
    (hb : 0 ≤ b ∧ b ≤ 99) (hb' : 0 ≤ b' ∧ b' ≤ 99)
    (h : pad4 a ++ "-" ++ pad2 b = pad4 a' ++ "-" ++ pad2 b') : a = a' ∧ b = b' := by
  have hd : (pad4 a).data ++ ('-' :: (pad2 b).data) =
      (pad4 a').data ++ ('-' :: (pad2 b').data) := by
    have hcd := congrArg String.data h
    rw [string_append_data, string_append_data, string_append_data, string_append_data] at hcd
    simpa [List.append_assoc] using hcd
  have hlen : (pad4 a).data.length = (pad4 a').data.length := by
    rw [pad4_length a ha.1 ha.2, pad4_length a' ha'.1 ha'.2]
  obtain ⟨h1, h2⟩ := List.append_inj hd hlen
  constructor
  · have e1 := decValAux_pad4 a ha.1 ha.2
    have e2 := decValAux_pad4 a' ha'.1 ha'.2
    have : a.toNat = a'.toNat := by rw [← e1, ← e2, h1]
    omega
  · have h3 : (pad2 b).data = (pad2 b').data := by
      injection h2
    have e1 := decValAux_pad2 b hb.1 hb.2
    have e2 := decValAux_pad2 b' hb'.1 hb'.2
    have : b.toNat = b'.toNat := by rw [← e1, ← e2, h3]
    omega

/-- Dropping nothing: `dropWhile` is the identity when the predicate fails
on every element. -/
theorem dropWhile_eq_self {α : Type} (p : α → Bool) (l : List α)
    (h : ∀ c ∈ l, p c = false) : l.dropWhile p = l := by
  cases l with
  | nil => rfl
  | cons a as =>
    rw [List.dropWhile_cons, if_neg]
    simp [h a (by simp)]

/-- Digits are not whitespace. -/
theorem isWsChar_of_digit (c : Char) (h : isDigitChar c = true) : isWsChar c = false := by
  unfold isDigitChar at h
  unfold isWsChar
  simp only [Bool.and_eq_true, decide_eq_true_eq] at h
  simp only [Bool.or_eq_false_iff, decide_eq_false_iff_not]
  omega

/-- Trimming a nonempty all-digit list is the identity. -/
theorem trimChars_digits (l : List Char) (h : l.all isDigitChar = true) :
    trimChars l = l := by
  have hws : ∀ c ∈ l, isWsChar c = false := by
    intro c hc
    exact isWsChar_of_digit c (by rw [List.all_eq_true] at h; exact h c hc)
  unfold trimChars
  rw [dropWhile_eq_self _ _ hws, dropWhile_eq_self _ _ (by simpa using hws),
    List.reverse_reverse]

/-- `Number()` on a nonempty all-digit string is its decimal value. -/
theorem jsNumber_digits (l : List Char) (hne : l ≠ []) (h : l.all isDigitChar = true) :
    jsNumber (String.mk l) = some ((decValAux l : Nat) : Int) := by
  unfold jsNumber
  rw [show (String.mk l).data = l from rfl, trimChars_digits l h]
  rw [if_neg hne, if_pos h]

theorem splitOnDash_cons_dash (l : List Char) :
    splitOnDash ('-' :: l) = [] :: splitOnDash l := by
  rw [splitOnDash, if_pos rfl]

theorem splitOnDash_cons_ne (c : Char) (l : List Char) (g : List Char)
    (gs : List (List Char)) (hc : c ≠ '-') (hl : splitOnDash l = g :: gs) :
    splitOnDash (c :: l) = (c :: g) :: gs := by
  rw [splitOnDash, if_neg hc, hl]

/-- Digits are not dashes. -/
theorem digit_ne_dash (c : Char) (h : isDigitChar c = true) : c ≠ '-' := by
  intro hc
  subst hc
  simp [isDigitChar] at h

/-- Sums of nonpositive integers are nonpositive. -/
theorem sum_nonpos (l : List Int) (h : ∀ x ∈ l, x ≤ 0) : l.sum ≤ 0 := by
  induction l with
  | nil => simp
  | cons x xs ih =>
    rw [List.sum_cons]
    have := h x (by simp)
    have := ih (fun a ha => h a (by simp [ha]))
    omega

/-- Component form of the roundtrip theorem. -/
theorem civilFromDays_components (y m d : Int) (hv : ValidDate y m d) :
    civilYear (daysFromCivil y m d) = y ∧ civilMonth (daysFromCivil y m d) = m ∧
      civilDay (daysFromCivil y m d) = d := by
  have h := civilFromDays_daysFromCivil y m d hv
  unfold civilFromDays at h
  rw [Prod.mk.injEq, Prod.mk.injEq] at h
  exact h

theorem monthRangeAux_length (n : Nat) (k : Int) : (monthRangeAux n k).length = n := by
  induction n generalizing k with
  | zero => rfl
  | succ n ih =>
    unfold monthRangeAux
    rw [List.length_cons, ih]

theorem monthRange_length (k₁ k₂ : Int) :
    (monthRange k₁ k₂).length = (k₂ + 1 - k₁).toNat := monthRangeAux_length _ _

theorem string_data_inj (s t : String) (h : s.data = t.data) : s = t := by
  cases s
  cases t
  simp only at h
  rw [h]

/-- MakeDay day-of-month overflow: when the requested day exceeds the month
length, the date lands in the following month, on day `d` minus the month
length. -/
theorem daysFromCivil_overflow (k d : Int)
    (hover : daysInMonth (k / 12) (k % 12 + 1) < d) (hd31 : d ≤ 31) :
    civilYear (daysFromCivil (k / 12) (k % 12 + 1) d) = civilYear (firstOfMonthDay (k + 1)) ∧
    civilMonth (daysFromCivil (k / 12) (k % 12 + 1) d) = civilMonth (firstOfMonthDay (k + 1)) ∧
    civilDay (daysFromCivil (k / 12) (k % 12 + 1) d) =
      d - daysInMonth (k / 12) (k % 12 + 1) := by
  have hb := daysInMonth_bounds (k / 12) (k % 12 + 1)
  have hb1 := daysInMonth_bounds ((k + 1) / 12) ((k + 1) % 12 + 1)
  have hsucc := firstOfMonthDay_succ k
  have hstep : daysFromCivil (k / 12) (k % 12 + 1) d =
      daysFromCivil ((k + 1) / 12) ((k + 1) % 12 + 1)
        (d - daysInMonth (k / 12) (k % 12 + 1)) := by
    rw [daysFromCivil_day (k / 12) (k % 12 + 1) d,
      daysFromCivil_day ((k + 1) / 12) ((k + 1) % 12 + 1)
        (d - daysInMonth (k / 12) (k % 12 + 1))]
    have e1 : daysFromCivil (k / 12) (k % 12 + 1) 1 = firstOfMonthDay k := rfl
    have e2 : daysFromCivil ((k + 1) / 12) ((k + 1) % 12 + 1) 1 = firstOfMonthDay (k + 1) := rfl
    rw [e1, e2]
    omega
  have hv : ValidDate ((k + 1) / 12) ((k + 1) % 12 + 1)
      (d - daysInMonth (k / 12) (k % 12 + 1)) := by
    unfold ValidDate
    omega
  obtain ⟨c1, c2, c3⟩ := civilFromDays_components _ _ _ hv
  rw [hstep, c1, c2, c3]
  have hv1 : ValidDate ((k + 1) / 12) ((k + 1) % 12 + 1) 1 := validDate_first (k + 1)
  obtain ⟨f1, f2, f3⟩ := civil_firstOfMonth (k + 1)
  exact ⟨f1.symm, f2.symm, rfl⟩

/-! ## Claim theorems -/

/-- C10.  The finance view summary accumulates the raw (signed) sum of the
strictly negative values into `expenses`, which is therefore never positive;
`netProfit` is `revenue + expenses`; the absolute value shown as the
Despesas figure is applied only at display time, so `netProfit` equals
revenue minus the displayed expense magnitude. -/
theorem claim_C10 (entries : List ViewExpense) :
    (calculateSummary entries).expenses ≤ 0 ∧
    (calculateSummary entries).expenses =
      ((entries.filter (fun e => decide (e.value < 0))).map (fun e => e.value)).sum ∧
    (calculateSummary entries).netProfit =
      (calculateSummary entries).revenue + (calculateSummary entries).expenses ∧
    displayedExpenses entries = |(calculateSummary entries).expenses| ∧
    (calculateSummary entries).netProfit =
      (calculateSummary entries).revenue - displayedExpenses entries := by
  obtain ⟨h1, h2, h3⟩ := calcSummary_foldl entries ⟨0, 0, 0⟩
  rw [show (⟨0, 0, 0⟩ : MonthlySummary).revenue = 0 from rfl, zero_add] at h1
  rw [show (⟨0, 0, 0⟩ : MonthlySummary).expenses = 0 from rfl, zero_add] at h2
  have he : (calculateSummary entries).expenses =
      (entries.foldl calcSummaryStep ⟨0, 0, 0⟩).expenses := rfl
  have hr : (calculateSummary entries).revenue =
      (entries.foldl calcSummaryStep ⟨0, 0, 0⟩).revenue := rfl
  have hn : (calculateSummary entries).netProfit =
      (entries.foldl calcSummaryStep ⟨0, 0, 0⟩).revenue +
        (entries.foldl calcSummaryStep ⟨0, 0, 0⟩).expenses := rfl
  have hneg : ((entries.filter (fun e => decide (e.value < 0))).map (fun e => e.value)).sum ≤ 0 := by
    apply sum_nonpos
    intro x hx
    rw [List.mem_map] at hx
    obtain ⟨e, he', rfl⟩ := hx
    rw [List.mem_filter] at he'
    have := he'.2
    simp at this
    omega
  have hexp : (calculateSummary entries).expenses ≤ 0 := by
    rw [he, h2]
    exact hneg
  refine ⟨hexp, by rw [he, h2], by rw [hn, hr, he], rfl, ?_⟩
  unfold displayedExpenses
  rw [abs_of_nonpos hexp, hn, hr, he]
  ring

/-- C3.  Range-mode day clicks: from an empty selection or a complete one
the new state is a fresh single anchor with no end date; from a single
anchor the lower click becomes the start (swap) and the higher the end;
after any two clicks from the empty state the selection is complete with
start at most end; and no day click in range mode ever emits the finalize
callback. -/
theorem claim_C3 :
    (∀ (st : PickerState) (s : String) (t : Int), parseDateUTC s = some t →
      st.startDate = none → handleDayClick true st s = (⟨some t, none⟩, none)) ∧
    (∀ (a b : Int) (s : String) (t : Int), parseDateUTC s = some t →
      handleDayClick true ⟨some a, some b⟩ s = (⟨some t, none⟩, none)) ∧
    (∀ (a : Int) (s : String) (t : Int), parseDateUTC s = some t →
      handleDayClick true ⟨some a, none⟩ s =
        ((if t < a then ⟨some t, some a⟩ else ⟨some a, some t⟩ : PickerState), none)) ∧
    (∀ (s₁ s₂ : String) (t₁ t₂ : Int), parseDateUTC s₁ = some t₁ → parseDateUTC s₂ = some t₂ →
      ∃ x y, (handleDayClick true (handleDayClick true ⟨none, none⟩ s₁).1 s₂).1 =
        (⟨some x, some y⟩ : PickerState) ∧ x ≤ y) ∧
    (∀ (st : PickerState) (s : String), (handleDayClick true st s).2 = none) := by
  have hEmpty : ∀ (st : PickerState) (s : String) (t : Int), parseDateUTC s = some t →
      st.startDate = none → handleDayClick true st s = (⟨some t, none⟩, none) := by
    intro st s t hp hst
    obtain ⟨sd, ed⟩ := st
    simp only at hst
    subst hst
    unfold handleDayClick
    rw [hp]
    rfl
  have hSingle : ∀ (a : Int) (s : String) (t : Int), parseDateUTC s = some t →
      handleDayClick true ⟨some a, none⟩ s =
        ((if t < a then ⟨some t, some a⟩ else ⟨some a, some t⟩ : PickerState), none) := by
    intro a s t hp
    unfold handleDayClick
    rw [hp]
    show (if t < a then ((⟨some t, some a⟩ : PickerState), (none : Option (Int × Option Int)))
        else (⟨some a, some t⟩, none)) =
      ((if t < a then ⟨some t, some a⟩ else ⟨some a, some t⟩ : PickerState), none)
    rcases lt_or_le t a with h | h
    · rw [if_pos h, if_pos h]
    · rw [if_neg (by omega), if_neg (by omega)]
  refine ⟨hEmpty, ?_, hSingle, ?_, ?_⟩
  · intro a b s t hp
    unfold handleDayClick
    rw [hp]
    rfl
  · intro s₁ s₂ t₁ t₂ hp₁ hp₂
    rw [hEmpty ⟨none, none⟩ s₁ t₁ hp₁ rfl]
    rw [hSingle t₁ s₂ t₂ hp₂]
    rcases lt_or_le t₂ t₁ with h | h
    · rw [if_pos h]
      exact ⟨t₂, t₁, rfl, by omega⟩
    · rw [if_neg (by omega)]
      exact ⟨t₁, t₂, rfl, by omega⟩
  · intro st s
    rcases hp : parseDateUTC s with _ | t
    · unfold handleDayClick
      rw [hp]
    · obtain ⟨_ | a, _ | b⟩ := st
      · unfold handleDayClick
        rw [hp]
        rfl
      · unfold handleDayClick
        rw [hp]
        rfl
      · unfold handleDayClick
        rw [hp]
        show ((if t < a then ((⟨some t, some a⟩ : PickerState), (none : Option (Int × Option Int)))
          else (⟨some a, some t⟩, none))).2 = none
        rcases lt_or_le t a with h | h
        · rw [if_pos h]
        · rw [if_neg (by omega)]
      · unfold handleDayClick
        rw [hp]
        rfl

/-- C3 witness: the two-click swap scenario, clicking 2024-05-10 then
2024-05-05 from the empty state. -/
theorem claim_C3_witness :
    handleDayClick true ⟨none, none⟩ "2024-05-10" = (⟨some 1715299200, none⟩, none) ∧
    (∃ x y, (handleDayClick true
        (handleDayClick true ⟨none, none⟩ "2024-05-10").1 "2024-05-05").1 =
      (⟨some x, some y⟩ : PickerState) ∧ x ≤ y) :=
  ⟨claim_C3.1 ⟨none, none⟩ "2024-05-10" 1715299200 (by decide) rfl,
    claim_C3.2.2.2.1 "2024-05-10" "2024-05-05" 1715299200 1714867200 (by decide) (by decide)⟩

/-- C8.  The Apply button is enabled exactly in the complete state; clicking
Apply emits `onSelect(start, end)` and closes the popup exactly when both
dates are set, is a no-op that emits nothing otherwise, and never changes
the selection state. -/
theorem claim_C8 :
    (∀ st : PickerState, (applyDisabled st = false ↔ ∃ a b : Int, st = ⟨some a, some b⟩)) ∧
    (∀ (a b : Int), applyClick ⟨some a, some b⟩ = (⟨some a, some b⟩, some (a, b)) ∧
      applyCloses ⟨some a, some b⟩ = true) ∧
    (∀ st : PickerState, applyDisabled st = true →
      applyClick st = (st, none) ∧ applyCloses st = false) ∧
    (∀ st : PickerState, (applyClick st).1 = st) := by
  refine ⟨?_, ?_, ?_, ?_⟩
  · intro st
    obtain ⟨_ | a, _ | b⟩ := st <;> simp [applyDisabled]
  · intro a b
    exact ⟨rfl, rfl⟩
  · intro st h
    obtain ⟨_ | a, _ | b⟩ := st <;> first
    | exact ⟨rfl, rfl⟩
    | simp [applyDisabled] at h
  · intro st
    obtain ⟨_ | a, _ | b⟩ := st <;> rfl

/-- C8 witness: a concrete complete state and a concrete incomplete one. -/
theorem claim_C8_witness :
    applyDisabled (⟨some 100, some 200⟩ : PickerState) = false ∧
    applyClick ⟨some 100, some 200⟩ = (⟨some 100, some 200⟩, some (100, 200)) ∧
    applyClick ⟨some 100, none⟩ = (⟨some 100, none⟩, none) ∧
    applyCloses ⟨some 100, none⟩ = false :=
  ⟨(claim_C8.1 ⟨some 100, some 200⟩).mpr ⟨100, 200, rfl⟩,
    (claim_C8.2.1 100 200).1,
    (claim_C8.2.2.1 ⟨some 100, none⟩ (by decide)).1,
    (claim_C8.2.2.1 ⟨some 100, none⟩ (by decide)).2⟩

/-- C4.  The monthly summary satisfies `netProfit = revenue - expenses`,
with expenses the sum of `abs(value)` over the projected occurrences
(virtual ones included) dated in the current local month, and, when all
appointment prices are nonnegative (they are revenue entries), revenue the
sum of the positive prices dated in the current local month. -/
theorem claim_C4 (tz today : Int) (appointmentsData : List Appointment)
    (allExpenses : List Expense) :
    (monthlySummaryOf tz today appointmentsData allExpenses).netProfit =
      (monthlySummaryOf tz today appointmentsData allExpenses).revenue -
        (monthlySummaryOf tz today appointmentsData allExpenses).expenses ∧
    (monthlySummaryOf tz today appointmentsData allExpenses).expenses =
      ((allExpenses.filter (fun x =>
        inCurrentMonth tz today (jsParseLocalMidnight tz x.entry_date))).map
          (fun x => |x.value|)).sum ∧
    ((∀ a ∈ appointmentsData, 0 ≤ a.price) →
      (monthlySummaryOf tz today appointmentsData allExpenses).revenue =
        ((appointmentsData.filter (fun a =>
          inCurrentMonth tz today (jsParseLocalDateTime tz a.appointment_datetime) &&
            decide (0 < a.price))).map (fun a => a.price)).sum) := by
  have hr : (monthlySummaryOf tz today appointmentsData allExpenses).revenue =
      appointmentsData.foldl
        (fun acc a =>
          if inCurrentMonth tz today (jsParseLocalDateTime tz a.appointment_datetime) then
            acc + a.price
          else acc) 0 := rfl
  have hx : (monthlySummaryOf tz today appointmentsData allExpenses).expenses =
      allExpenses.foldl
        (fun acc x =>
          if inCurrentMonth tz today (jsParseLocalMidnight tz x.entry_date) then
            acc + |x.value|
          else acc) 0 := rfl
  have hn : (monthlySummaryOf tz today appointmentsData allExpenses).netProfit =
      (monthlySummaryOf tz today appointmentsData allExpenses).revenue -
        (monthlySummaryOf tz today appointmentsData allExpenses).expenses := rfl
  refine ⟨hn, ?_, ?_⟩
  · rw [hx]
    exact (foldl_guard_sum _ _ allExpenses 0).trans (zero_add _)
  · intro hpos
    rw [hr]
    refine ((foldl_guard_sum _ _ appointmentsData 0).trans (zero_add _)).trans ?_
    exact filter_sum_pos
      (fun a => inCurrentMonth tz today (jsParseLocalDateTime tz a.appointment_datetime))
      (fun a => a.price) appointmentsData hpos

/-- C4 witness: revenue 100 on 2024-03-05 and a virtual expense -30 on
2024-03-15 give `{revenue: 100, expenses: 30, netProfit: 70}` for March
2024 (reference instant 2024-03-20T00:00Z, UTC host). -/
theorem claim_C4_witness :
    monthlySummaryOf 0 (utcMidnight 2024 3 20) [⟨"2024-03-05T10:00:00", 100⟩]
      [⟨"f2-2024-03", "2024-03-15", "exp", -30, "Fixa", "f2", true⟩] =
      ⟨100, 30, 70⟩ ∧
    (monthlySummaryOf 0 (utcMidnight 2024 3 20) [⟨"2024-03-05T10:00:00", 100⟩]
      [⟨"f2-2024-03", "2024-03-15", "exp", -30, "Fixa", "f2", true⟩]).netProfit =
      (monthlySummaryOf 0 (utcMidnight 2024 3 20) [⟨"2024-03-05T10:00:00", 100⟩]
        [⟨"f2-2024-03", "2024-03-15", "exp", -30, "Fixa", "f2", true⟩]).revenue -
      (monthlySummaryOf 0 (utcMidnight 2024 3 20) [⟨"2024-03-05T10:00:00", 100⟩]
        [⟨"f2-2024-03", "2024-03-15", "exp", -30, "Fixa", "f2", true⟩]).expenses ∧
    (monthlySummaryOf 0 (utcMidnight 2024 3 20) [⟨"2024-03-05T10:00:00", 100⟩]
      [⟨"f2-2024-03", "2024-03-15", "exp", -30, "Fixa", "f2", true⟩]).revenue =
      ((([⟨"2024-03-05T10:00:00", 100⟩] : List Appointment).filter (fun a =>
        inCurrentMonth 0 (utcMidnight 2024 3 20)
            (jsParseLocalDateTime 0 a.appointment_datetime) &&
          decide (0 < a.price))).map (fun a => a.price)).sum :=
  ⟨by decide,
    (claim_C4 0 (utcMidnight 2024 3 20) [⟨"2024-03-05T10:00:00", 100⟩]
      [⟨"f2-2024-03", "2024-03-15", "exp", -30, "Fixa", "f2", true⟩]).1,
    (claim_C4 0 (utcMidnight 2024 3 20) [⟨"2024-03-05T10:00:00", 100⟩]
      [⟨"f2-2024-03", "2024-03-15", "exp", -30, "Fixa", "f2", true⟩]).2.2 (by decide)⟩

/-- C6 counterexample.  A `Pontual` entry with an unparseable date is not
skipped: it passes through to the projection output. -/
theorem claim_C6_counterexample :
    allExpensesOf 0 (utcMidnight 2024 3 20) [⟨"p1", "not-a-date", "x", -50, "Pontual"⟩] =
      [⟨"p1", "not-a-date", "x", -50, "Pontual", "p1", false⟩] ∧
    allExpensesOf 0 (utcMidnight 2024 3 20) [⟨"p1", "not-a-date", "x", -50, "Pontual"⟩] ≠
      [] :=
  ⟨by decide, by decide⟩

/-- C6 (amended).  An entry whose date does not parse yields no virtual
occurrences: a `Fixa` entry (or any non-negative / unknown-type entry) is
skipped entirely, while a negative `Pontual` entry passes through to the
expense list; in either case it contributes nothing to the monthly summary
or the annual expense buckets, and the aggregation over the remaining
entries is unchanged. -/
theorem claim_C6 (tz today : Int) (apps : List Appointment)
    (xs ys : List FinancialEntry) (e : FinancialEntry)
    (hbad : jsParseLocalMidnight tz e.entry_date = none) :
    (expandEntry tz today e =
      if e.type = "Pontual" ∧ e.value < 0 then [mkPontualExpense e] else []) ∧
    monthlySummaryOf tz today apps (allExpensesOf tz today (xs ++ e :: ys)) =
      monthlySummaryOf tz today apps (allExpensesOf tz today (xs ++ ys)) ∧
    annualExpenseDataOf tz today (allExpensesOf tz today (xs ++ e :: ys)) =
      annualExpenseDataOf tz today (allExpensesOf tz today (xs ++ ys)) := by
  have hexp : expandEntry tz today e =
      if e.type = "Pontual" ∧ e.value < 0 then [mkPontualExpense e] else [] := by
    unfold expandEntry
    rcases le_or_lt 0 e.value with h0 | h0
    · rw [if_pos h0, if_neg (fun hc => absurd hc.2 (by omega))]
    · rw [if_neg (by omega)]
      by_cases hP : e.type = "Pontual"
      · rw [if_pos hP, if_pos ⟨hP, h0⟩]
      · rw [if_neg hP]
        by_cases hF : e.type = "Fixa"
        · rw [if_pos hF, hbad, if_neg (fun hc => hP hc.1)]
        · rw [if_neg hF, if_neg (fun hc => hP hc.1)]
  have hsplit : allExpensesOf tz today (xs ++ e :: ys) =
      allExpensesOf tz today xs ++ (expandEntry tz today e ++ allExpensesOf tz today ys) := by
    unfold allExpensesOf
    rw [List.flatMap_append, List.flatMap_cons]
  have hsplit2 : allExpensesOf tz today (xs ++ ys) =
      allExpensesOf tz today xs ++ allExpensesOf tz today ys := by
    unfold allExpensesOf
    rw [List.flatMap_append]
  refine ⟨hexp, ?_, ?_⟩
  · -- the monthly summary folds agree: the pass-through element never
    -- matches the current month because its date does not parse
    have hxeq : (allExpensesOf tz today (xs ++ e :: ys)).foldl
        (fun acc x =>
          if inCurrentMonth tz today (jsParseLocalMidnight tz x.entry_date) then
            acc + |x.value|
          else acc) 0 =
        (allExpensesOf tz today (xs ++ ys)).foldl
        (fun acc x =>
          if inCurrentMonth tz today (jsParseLocalMidnight tz x.entry_date) then
            acc + |x.value|
          else acc) 0 := by
      rw [hsplit, hsplit2, hexp]
      by_cases hc : e.type = "Pontual" ∧ e.value < 0
      · rw [if_pos hc, List.singleton_append]
        apply foldl_middle_id
        intro b
        rw [show (mkPontualExpense e).entry_date = e.entry_date from rfl, hbad]
        rw [if_neg (by simp [inCurrentMonth])]
      · rw [if_neg hc, List.nil_append]
    have c1 : monthlySummaryOf tz today apps (allExpensesOf tz today (xs ++ e :: ys)) =
        ⟨(monthlySummaryOf tz today apps (allExpensesOf tz today (xs ++ e :: ys))).revenue,
          (allExpensesOf tz today (xs ++ e :: ys)).foldl
            (fun acc x =>
              if inCurrentMonth tz today (jsParseLocalMidnight tz x.entry_date) then
                acc + |x.value|
              else acc) 0,
          (monthlySummaryOf tz today apps (allExpensesOf tz today (xs ++ e :: ys))).revenue -
            (allExpensesOf tz today (xs ++ e :: ys)).foldl
              (fun acc x =>
                if inCurrentMonth tz today (jsParseLocalMidnight tz x.entry_date) then
                  acc + |x.value|
                else acc) 0⟩ := rfl
    have c2 : monthlySummaryOf tz today apps (allExpensesOf tz today (xs ++ ys)) =
        ⟨(monthlySummaryOf tz today apps (allExpensesOf tz today (xs ++ ys))).revenue,
          (allExpensesOf tz today (xs ++ ys)).foldl
            (fun acc x =>
              if inCurrentMonth tz today (jsParseLocalMidnight tz x.entry_date) then
                acc + |x.value|
              else acc) 0,
          (monthlySummaryOf tz today apps (allExpensesOf tz today (xs ++ ys))).revenue -
            (allExpensesOf tz today (xs ++ ys)).foldl
              (fun acc x =>
                if inCurrentMonth tz today (jsParseLocalMidnight tz x.entry_date) then
                  acc + |x.value|
                else acc) 0⟩ := rfl
    have hreq : (monthlySummaryOf tz today apps
        (allExpensesOf tz today (xs ++ e :: ys))).revenue =
        (monthlySummaryOf tz today apps (allExpensesOf tz today (xs ++ ys))).revenue := rfl
    rw [c1, c2, hxeq, hreq]
  · rw [hsplit, hsplit2, hexp]
    unfold annualExpenseDataOf
    by_cases hc : e.type = "Pontual" ∧ e.value < 0
    · rw [if_pos hc, List.singleton_append]
      apply foldl_middle_id
      intro b
      rw [show (mkPontualExpense e).entry_date = e.entry_date from rfl, hbad]
    · rw [if_neg hc, List.nil_append]

/-- C1.  A negative `Fixa` entry expands into exactly one virtual
occurrence per calendar month, from the month of its start date through the
month of the reference date inclusive; in particular an entry dated
2024-01-15 projected at reference date 2024-04-10 yields exactly the four
occurrences dated 2024-01-15, 2024-02-15, 2024-03-15 and 2024-04-15. -/
theorem claim_C1 :
    (∀ (e : FinancialEntry) (y0 m0 d0 yr mr dr : Int),
      e.type = "Fixa" → e.value < 0 → ValidDate y0 m0 d0 → ValidDate yr mr dr →
      100 ≤ y0 → jsParseLocalMidnight 0 e.entry_date = some (utcMidnight y0 m0 d0) →
      expandEntry 0 (utcMidnight yr mr dr) e =
        (monthRange (monthIdx y0 m0) (monthIdx yr mr)).map (fixaOccAt e d0) ∧
      (expandEntry 0 (utcMidnight yr mr dr) e).length =
        (monthIdx yr mr + 1 - monthIdx y0 m0).toNat) ∧
    (∀ e : FinancialEntry, e.type = "Fixa" → e.value < 0 →
      jsParseLocalMidnight 0 e.entry_date = some (utcMidnight 2024 1 15) →
      (expandEntry 0 (utcMidnight 2024 4 10) e).map (fun x => x.entry_date) =
        ["2024-01-15", "2024-02-15", "2024-03-15", "2024-04-15"]) := by
  have hgen : ∀ (e : FinancialEntry) (y0 m0 d0 yr mr dr : Int),
      e.type = "Fixa" → e.value < 0 → ValidDate y0 m0 d0 → ValidDate yr mr dr →
      100 ≤ y0 → jsParseLocalMidnight 0 e.entry_date = some (utcMidnight y0 m0 d0) →
      expandEntry 0 (utcMidnight yr mr dr) e =
        (monthRange (monthIdx y0 m0) (monthIdx yr mr)).map (fixaOccAt e d0) :=
    fun e y0 m0 d0 yr mr dr h1 h2 h3 h4 h5 h6 =>
      expandEntry_fixa e y0 m0 d0 yr mr dr h1 h2 h3 h4 h5 h6
  refine ⟨fun e y0 m0 d0 yr mr dr h1 h2 h3 h4 h5 h6 => ?_, fun e h1 h2 h6 => ?_⟩
  · have h := hgen e y0 m0 d0 yr mr dr h1 h2 h3 h4 h5 h6
    exact ⟨h, by rw [h, List.length_map, monthRange_length]⟩
  · have h := hgen e 2024 1 15 2024 4 10 h1 h2 (by decide) (by decide) (by norm_num) h6
    rw [h, List.map_map]
    rfl

/-- C1 witness: the concrete entry of the claim, expanded at reference date
2024-04-10 into its four dated occurrences. -/
theorem claim_C1_witness :
    expandEntry 0 (utcMidnight 2024 4 10)
        ⟨"r1", "2024-01-15", "rent", -100, "Fixa"⟩ =
      [⟨"r1-2024-01", "2024-01-15", "rent", -100, "Fixa", "r1", true⟩,
       ⟨"r1-2024-02", "2024-02-15", "rent", -100, "Fixa", "r1", true⟩,
       ⟨"r1-2024-03", "2024-03-15", "rent", -100, "Fixa", "r1", true⟩,
       ⟨"r1-2024-04", "2024-04-15", "rent", -100, "Fixa", "r1", true⟩] ∧
    (expandEntry 0 (utcMidnight 2024 4 10)
      ⟨"r1", "2024-01-15", "rent", -100, "Fixa"⟩).length = 4 := by
  have h := claim_C1.1 ⟨"r1", "2024-01-15", "rent", -100, "Fixa"⟩ 2024 1 15 2024 4 10
    rfl (by norm_num) (by decide) (by decide) (by norm_num) (by decide)
  exact ⟨h.1.trans (by decide), h.2.trans (by decide)⟩

/-- C5 counterexample.  The claim that every occurrence keeps the source
day-of-month fails for short months: a recurring entry dated 2024-01-31
projected at reference date 2024-02-15 yields a second occurrence dated
2024-03-02 (JS `Date` rolls the day over; day-of-month 2, not 31). -/
theorem claim_C5_counterexample :
    (allExpensesOf 0 (utcMidnight 2024 2 15)
      [⟨"r2", "2024-01-31", "x", -40, "Fixa"⟩]).map (fun x => x.entry_date) =
      ["2024-01-31", "2024-03-02"] ∧
    ¬ (∀ x ∈ allExpensesOf 0 (utcMidnight 2024 2 15)
        [⟨"r2", "2024-01-31", "x", -40, "Fixa"⟩],
        (jsParseLocalMidnight 0 x.entry_date).map jsGetUTCDate = some 31) :=
  ⟨by decide, by decide⟩

/-- C5 (amended).  The occurrence of month `k` is dated via `MakeDay` on
the source day-of-month `d₀`: when the month has at least `d₀` days the
day-of-month is preserved; when it is shorter, no clamping is applied and
the date rolls over into the following month, on day `d₀` minus the month
length. -/
theorem claim_C5 (e : FinancialEntry) (y0 m0 d0 yr mr dr : Int)
    (htype : e.type = "Fixa") (hneg : e.value < 0)
    (hv0 : ValidDate y0 m0 d0) (hvr : ValidDate yr mr dr) (hy0 : 100 ≤ y0)
    (hparse : jsParseLocalMidnight 0 e.entry_date = some (utcMidnight y0 m0 d0)) :
    (expandEntry 0 (utcMidnight yr mr dr) e).map (fun x => x.entry_date) =
      (monthRange (monthIdx y0 m0) (monthIdx yr mr)).map
        (fun k => jsToISODate (daysFromCivil (k / 12) (k % 12 + 1) d0 * 86400)) ∧
    (∀ k ∈ monthRange (monthIdx y0 m0) (monthIdx yr mr),
      (d0 ≤ daysInMonth (k / 12) (k % 12 + 1) →
        civilDay (daysFromCivil (k / 12) (k % 12 + 1) d0) = d0) ∧
      (daysInMonth (k / 12) (k % 12 + 1) < d0 →
        civilDay (daysFromCivil (k / 12) (k % 12 + 1) d0) =
          d0 - daysInMonth (k / 12) (k % 12 + 1) ∧
        civilMonth (daysFromCivil (k / 12) (k % 12 + 1) d0) =
          civilMonth (firstOfMonthDay (k + 1)))) := by
  obtain ⟨hm01, hm02, hd01, hd02⟩ := hv0
  have hd31 : d0 ≤ 31 := by
    have := daysInMonth_bounds y0 m0
    omega
  constructor
  · rw [expandEntry_fixa e y0 m0 d0 yr mr dr htype hneg
      ⟨hm01, hm02, hd01, hd02⟩ hvr hy0 hparse, List.map_map]
    rfl
  · intro k _
    constructor
    · intro hle
      have hv : ValidDate (k / 12) (k % 12 + 1) d0 := by
        unfold ValidDate
        omega
      exact (civilFromDays_components _ _ _ hv).2.2
    · intro hlt
      obtain ⟨o1, o2, o3⟩ := daysFromCivil_overflow k d0 hlt hd31
      exact ⟨o3, o2⟩

/-- C5 witness: for the entry dated 2024-01-15 the day is preserved in all
four months, and for the January 31 entry the February month is short, so
the occurrence day becomes 2. -/
theorem claim_C5_witness :
    (expandEntry 0 (utcMidnight 2024 2 15)
      ⟨"r2", "2024-01-31", "x", -40, "Fixa"⟩).map (fun x => x.entry_date) =
      (monthRange (monthIdx 2024 1) (monthIdx 2024 2)).map
        (fun k => jsToISODate (daysFromCivil (k / 12) (k % 12 + 1) 31 * 86400)) ∧
    (daysInMonth 2024 2 < 31 ∧
      civilDay (daysFromCivil (monthIdx 2024 2 / 12) (monthIdx 2024 2 % 12 + 1) 31) =
        31 - daysInMonth (monthIdx 2024 2 / 12) (monthIdx 2024 2 % 12 + 1)) := by
  have h := claim_C5 ⟨"r2", "2024-01-31", "x", -40, "Fixa"⟩ 2024 1 31 2024 2 15
    rfl (by norm_num) (by decide) (by decide) (by norm_num) (by decide)
  refine ⟨h.1, by decide, ?_⟩
  exact ((h.2 (monthIdx 2024 2) (by decide)).2 (by decide)).1

/-- C7 counterexample.  In the flattened list handed to the view layer the
occurrence ids are replaced by the original entry id, so the two
occurrences of one recurring entry share the id `r1`: the ids are not
pairwise distinct there. -/
theorem claim_C7_counterexample :
    (flattenForView (allExpensesOf 0 (utcMidnight 2024 2 10)
      [⟨"r1", "2024-01-15", "rent", -100, "Fixa"⟩])).map (fun x => x.id) =
      ["r1", "r1"] ∧
    ¬ ((flattenForView (allExpensesOf 0 (utcMidnight 2024 2 10)
      [⟨"r1", "2024-01-15", "rent", -100, "Fixa"⟩])).map (fun x => x.id)).Nodup :=
  ⟨by decide, by decide⟩

/-- C7 (amended).  Inside the projection list each occurrence of a
recurring entry carries the deterministic id
`entry.id + "-" + YYYY-MM`, and for one entry these ids are pairwise
distinct across its months; the flattened view list instead carries the
original entry id on every element (which is what makes deletion work, and
what defeats global uniqueness there). -/
theorem claim_C7 (e : FinancialEntry) (y0 m0 d0 yr mr dr : Int)
    (htype : e.type = "Fixa") (hneg : e.value < 0)
    (hv0 : ValidDate y0 m0 d0) (hvr : ValidDate yr mr dr)
    (hy0 : 100 ≤ y0) (hyr : yr ≤ 9999)
    (hparse : jsParseLocalMidnight 0 e.entry_date = some (utcMidnight y0 m0 d0)) :
    (expandEntry 0 (utcMidnight yr mr dr) e).map (fun x => x.id) =
      (monthRange (monthIdx y0 m0) (monthIdx yr mr)).map
        (fun k => e.id ++ "-" ++ (pad4 (k / 12) ++ "-" ++ pad2 (k % 12 + 1))) ∧
    ((expandEntry 0 (utcMidnight yr mr dr) e).map (fun x => x.id)).Nodup ∧
    (∀ v ∈ flattenForView (expandEntry 0 (utcMidnight yr mr dr) e), v.id = e.id) := by
  have hids : (expandEntry 0 (utcMidnight yr mr dr) e).map (fun x => x.id) =
      (monthRange (monthIdx y0 m0) (monthIdx yr mr)).map
        (fun k => e.id ++ "-" ++ (pad4 (k / 12) ++ "-" ++ pad2 (k % 12 + 1))) := by
    rw [expandEntry_fixa e y0 m0 d0 yr mr dr htype hneg hv0 hvr hy0 hparse, List.map_map]
    rfl
  have hm01 : 1 ≤ m0 := hv0.1
  have hm02 : m0 ≤ 12 := hv0.2.1
  have hmr1 : 1 ≤ mr := hvr.1
  have hmr2 : mr ≤ 12 := hvr.2.1
  refine ⟨hids, ?_, ?_⟩
  · rw [hids]
    apply List.Nodup.map_on ?_ (monthRangeAux_nodup _ _)
    intro k1 hk1 k2 hk2 heq
    rw [monthRangeAux_mem] at hk1 hk2
    have hy1 : 100 ≤ k1 / 12 ∧ k1 / 12 ≤ 9999 := by
      unfold monthIdx at hk1
      omega
    have hy2 : 100 ≤ k2 / 12 ∧ k2 / 12 ≤ 9999 := by
      unfold monthIdx at hk2
      omega
    -- peel the shared prefix `e.id ++ "-"` at the character level
    have hd := congrArg String.data heq
    simp only [string_append_data, List.append_assoc] at hd
    have htail := List.append_cancel_left hd
    have h2 := List.append_cancel_left htail
    have hiso : pad4 (k1 / 12) ++ "-" ++ pad2 (k1 % 12 + 1) =
        pad4 (k2 / 12) ++ "-" ++ pad2 (k2 % 12 + 1) := by
      apply string_data_inj
      simp only [string_append_data, List.append_assoc]
      exact h2
    obtain ⟨ha, hb⟩ := iso7_inj (k1 / 12) (k1 % 12 + 1) (k2 / 12) (k2 % 12 + 1)
      ⟨by omega, by omega⟩ ⟨by omega, by omega⟩ ⟨by omega, by omega⟩ ⟨by omega, by omega⟩
      hiso
    omega
  · intro v hv
    unfold flattenForView at hv
    rw [List.mem_map] at hv
    obtain ⟨x, hx, rfl⟩ := hv
    rw [expandEntry_fixa e y0 m0 d0 yr mr dr htype hneg hv0 hvr hy0 hparse] at hx
    rw [List.mem_map] at hx
    obtain ⟨k, _, rfl⟩ := hx
    rfl

/-- C7 witness: two months of one entry carry distinct ids in the
projection list, while the flattened list repeats the original id. -/
theorem claim_C7_witness :
    (expandEntry 0 (utcMidnight 2024 2 10)
      ⟨"r1", "2024-01-15", "rent", -100, "Fixa"⟩).map (fun x => x.id) =
      ["r1-2024-01", "r1-2024-02"] ∧
    ((expandEntry 0 (utcMidnight 2024 2 10)
      ⟨"r1", "2024-01-15", "rent", -100, "Fixa"⟩).map (fun x => x.id)).Nodup := by
  have h := claim_C7 ⟨"r1", "2024-01-15", "rent", -100, "Fixa"⟩ 2024 1 15 2024 2 10
    rfl (by norm_num) (by decide) (by decide) (by norm_num) (by norm_num) (by decide)
  exact ⟨h.1.trans (by decide), h.2.1⟩

/-- C2 (code bug evidence).  The expense projection of `calculateAnalytics`
is not timezone independent: for the recurring entry `e1` dated 2024-01-15
and reference instant 2024-01-20T00:00Z, a UTC host produces the occurrence
id `e1-2024-01` dated `2024-01-15`, while a UTC+13 host (offset 780
minutes) produces the id `e1-2023-12` dated `2023-12-13`. -/
theorem claim_C2_divergence :
    (allExpensesOf 0 (utcMidnight 2024 1 20)
      [⟨"e1", "2024-01-15", "rent", -10, "Fixa"⟩]).map (fun x => (x.id, x.entry_date)) =
      [("e1-2024-01", "2024-01-15")] ∧
    (allExpensesOf 780 (utcMidnight 2024 1 20)
      [⟨"e1", "2024-01-15", "rent", -10, "Fixa"⟩]).map (fun x => (x.id, x.entry_date)) =
      [("e1-2023-12", "2023-12-13")] ∧
    allExpensesOf 0 (utcMidnight 2024 1 20) [⟨"e1", "2024-01-15", "rent", -10, "Fixa"⟩] ≠
      allExpensesOf 780 (utcMidnight 2024 1 20) [⟨"e1", "2024-01-15", "rent", -10, "Fixa"⟩] :=
  ⟨by decide, by decide, by decide⟩

/-- C6 witness: the concrete `Pontual` entry with unparseable date passes
through the projection unchanged and leaves the monthly summary over the
remaining (empty) list unchanged. -/
theorem claim_C6_witness :
    jsParseLocalMidnight 0 (FinancialEntry.entry_date
      ⟨"p1", "not-a-date", "x", -50, "Pontual"⟩) = none ∧
    monthlySummaryOf 0 (utcMidnight 2024 3 20) []
        (allExpensesOf 0 (utcMidnight 2024 3 20)
          ([] ++ (⟨"p1", "not-a-date", "x", -50, "Pontual"⟩ : FinancialEntry) :: [])) =
      monthlySummaryOf 0 (utcMidnight 2024 3 20) []
        (allExpensesOf 0 (utcMidnight 2024 3 20) ([] ++ [])) :=
  ⟨by decide,
   (claim_C6 0 (utcMidnight 2024 3 20) [] [] []
     ⟨"p1", "not-a-date", "x", -50, "Pontual"⟩ (by decide)).2.1⟩

/-- C9 counterexample.  `parseDateUTC` is not restricted to the
`YYYY-MM-DD` shape: the string `"1-2-3"` parses to a date (1901-02-03,
via the two-digit-year rule of `Date.UTC`) even though it does not have
the claimed shape. -/
theorem claim_C9_counterexample :
    (parseDateUTC "1-2-3").isSome = true ∧ shapeYMD "1-2-3" = false :=
  ⟨by decide, by decide⟩

/-- C9 (amended).  The finance view's `parseDateSafely` accepts exactly
the shape `\d{4}-\d{2}-\d{2}` and returns the null sentinel otherwise;
the datepicker's `parseDateUTC` accepts every string of that shape (so it
is at least as permissive as the claim states, and strictly more, as the
counterexample shows). -/
theorem claim_C9 :
    (∀ s : String, (parseDateSafely s).isSome = shapeYMD s) ∧
    (∀ s : String, shapeYMD s = true → (parseDateUTC s).isSome = true) := by
  constructor
  · intro s
    cases s with
    | mk l =>
      unfold parseDateSafely shapeYMD
      rcases l with _ | ⟨a1, _ | ⟨a2, _ | ⟨a3, _ | ⟨a4, _ | ⟨a5, _ | ⟨a6, _ | ⟨a7,
        _ | ⟨a8, _ | ⟨a9, _ | ⟨a10, _ | ⟨a11, t⟩⟩⟩⟩⟩⟩⟩⟩⟩⟩⟩ <;>
        first
          | rfl
          | (dsimp only; split_ifs with hp
             exacts [(decide_eq_true hp).symm, (decide_eq_false hp).symm])
  · intro s hs
    cases s with
    | mk l =>
      unfold shapeYMD at hs
      rcases l with _ | ⟨a1, _ | ⟨a2, _ | ⟨a3, _ | ⟨a4, _ | ⟨a5, _ | ⟨a6, _ | ⟨a7,
        _ | ⟨a8, _ | ⟨a9, _ | ⟨a10, _ | ⟨a11, t⟩⟩⟩⟩⟩⟩⟩⟩⟩⟩⟩ <;>
        try exact absurd hs Bool.false_ne_true
      have hp := of_decide_eq_true hs
      obtain ⟨hall, hc5, hc8⟩ := hp
      simp only [List.all_cons, List.all_nil, Bool.and_eq_true, Bool.and_true] at hall
      obtain ⟨h1, h2, h3, h4, h6, h7, h9, h10⟩ := hall
      subst hc5
      subst hc8
      have s10 : splitOnDash [a10] = [[a10]] :=
        splitOnDash_cons_ne a10 [] [] [] (digit_ne_dash a10 h10) rfl
      have s9 : splitOnDash [a9, a10] = [[a9, a10]] :=
        splitOnDash_cons_ne a9 [a10] [a10] [] (digit_ne_dash a9 h9) s10
      have s8 : splitOnDash ('-' :: [a9, a10]) = [] :: [[a9, a10]] := by
        rw [splitOnDash_cons_dash, s9]
      have s7 : splitOnDash (a7 :: '-' :: [a9, a10]) = [a7] :: [[a9, a10]] :=
        splitOnDash_cons_ne a7 ('-' :: [a9, a10]) [] [[a9, a10]]
          (digit_ne_dash a7 h7) s8
      have s6 : splitOnDash (a6 :: a7 :: '-' :: [a9, a10]) = [a6, a7] :: [[a9, a10]] :=
        splitOnDash_cons_ne a6 (a7 :: '-' :: [a9, a10]) [a7] [[a9, a10]]
          (digit_ne_dash a6 h6) s7
      have s5 : splitOnDash ('-' :: a6 :: a7 :: '-' :: [a9, a10]) =
          [] :: [a6, a7] :: [[a9, a10]] := by
        rw [splitOnDash_cons_dash, s6]
      have s4 : splitOnDash (a4 :: '-' :: a6 :: a7 :: '-' :: [a9, a10]) =
          [a4] :: [a6, a7] :: [[a9, a10]] :=
        splitOnDash_cons_ne a4 ('-' :: a6 :: a7 :: '-' :: [a9, a10]) []
          ([a6, a7] :: [[a9, a10]]) (digit_ne_dash a4 h4) s5
      have s3 : splitOnDash (a3 :: a4 :: '-' :: a6 :: a7 :: '-' :: [a9, a10]) =
          [a3, a4] :: [a6, a7] :: [[a9, a10]] :=
        splitOnDash_cons_ne a3 (a4 :: '-' :: a6 :: a7 :: '-' :: [a9, a10]) [a4]
          ([a6, a7] :: [[a9, a10]]) (digit_ne_dash a3 h3) s4
      have s2 : splitOnDash (a2 :: a3 :: a4 :: '-' :: a6 :: a7 :: '-' :: [a9, a10]) =
          [a2, a3, a4] :: [a6, a7] :: [[a9, a10]] :=
        splitOnDash_cons_ne a2 (a3 :: a4 :: '-' :: a6 :: a7 :: '-' :: [a9, a10])
          [a3, a4] ([a6, a7] :: [[a9, a10]]) (digit_ne_dash a2 h2) s3
      have s1 : splitOnDash (a1 :: a2 :: a3 :: a4 :: '-' :: a6 :: a7 :: '-' :: [a9, a10]) =
          [a1, a2, a3, a4] :: [a6, a7] :: [[a9, a10]] :=
        splitOnDash_cons_ne a1 (a2 :: a3 :: a4 :: '-' :: a6 :: a7 :: '-' :: [a9, a10])
          [a2, a3, a4] ([a6, a7] :: [[a9, a10]]) (digit_ne_dash a1 h1) s2
      unfold parseDateUTC
      rw [if_neg (fun hemp => by
        have := congrArg String.data hemp
        simp at this)]
      rw [show (String.mk (a1 :: a2 :: a3 :: a4 :: '-' :: a6 :: a7 :: '-' ::
        [a9, a10])).data = a1 :: a2 :: a3 :: a4 :: '-' :: a6 :: a7 :: '-' ::
        [a9, a10] from rfl, s1]
      simp only [List.map]
      rw [jsNumber_digits [a1, a2, a3, a4] (by simp)
          (by simp [List.all_cons, h1, h2, h3, h4]),
        jsNumber_digits [a6, a7] (by simp) (by simp [List.all_cons, h6, h7]),
        jsNumber_digits [a9, a10] (by simp) (by simp [List.all_cons, h9, h10])]
      rfl

/-- C9 witness: a concrete well-shaped string is accepted by both parsers. -/
theorem claim_C9_witness :
    shapeYMD "2024-05-10" = true ∧ (parseDateUTC "2024-05-10").isSome = true :=
  ⟨by decide, claim_C9.2 "2024-05-10" (by decide)⟩

end Dashboard
